import Mathlib

/-!
Verification of the session-management core of `claude_session_manager_mcp/server.py`.

The Python source is shallowly embedded: JSON values become the inductive `Json`
(CPython dicts are insertion-ordered association lists with unique keys, and
floats are outside the model), Python operations that can raise become
`Except Unit` computations, and the `json.loads` decoding of each transcript
line is recorded alongside the raw line text in a `Line` (the decoder itself is
the Python standard library, external to this repository).

Transcript files are modelled as the list of lines yielded by Python's
text-mode file iteration: every element carries its terminating newline except
possibly the last (the trailing content after the last complete line).
-/

/-! ## JSON values and CPython dictionary/sequence semantics -/

inductive Json where
  | null
  | bool (b : Bool)
  | num (n : Int)
  | str (s : String)
  | arr (items : List Json)
  | obj (fields : List (String × Json))
deriving Repr, Inhabited

/-- Lookup in a CPython dict (association list, first match). -/
def lookupField : List (String × Json) → String → Option Json
  | [], _ => none
  | (k, v) :: fs, key => if k = key then some v else lookupField fs key

/-- Reading `j[k]` as an option: `none` both when the key is absent and when
`j` is not a dict. -/
def Json.getKey? : Json → String → Option Json
  | .obj fs, k => lookupField fs k
  | _, _ => none

/-- Python `j.get(k, d)`: raises `AttributeError` when `j` is not a dict. -/
def pyGetD (j : Json) (k : String) (d : Json) : Except Unit Json :=
  match j with
  | .obj fs => .ok ((lookupField fs k).getD d)
  | _ => .error ()

/-- Python `j.get(k)` (default `None`, reported here as `none`):
raises `AttributeError` when `j` is not a dict. -/
def pyGetOpt (j : Json) (k : String) : Except Unit (Option Json) :=
  match j with
  | .obj fs => .ok (lookupField fs k)
  | _ => .error ()

/-- CPython dict item assignment `d[k] = v`: an existing key keeps its position
and gets the new value, a new key is appended. -/
def setField : List (String × Json) → String → Json → List (String × Json)
  | [], k, v => [(k, v)]
  | (k', v') :: fs, k, v =>
    if k' = k then (k, v) :: fs else (k', v') :: setField fs k v

/-- `j[k] = v` on a dict; the non-dict case is never used by the embedding. -/
def Json.setKey (j : Json) (k : String) (v : Json) : Json :=
  match j with
  | .obj fs => .obj (setField fs k v)
  | other => other

/-- Python truthiness of a JSON value. -/
def Json.truthy : Json → Bool
  | .null => false
  | .bool b => b
  | .num n => n != 0
  | .str s => !s.data.isEmpty
  | .arr xs => !xs.isEmpty
  | .obj fs => !fs.isEmpty

/-- Python `for x in j`: lists yield their items, strings their one-character
substrings, dicts their keys; other values raise `TypeError`. -/
def pyIter (j : Json) : Except Unit (List Json) :=
  match j with
  | .arr xs => .ok xs
  | .str s => .ok (s.data.map fun c => Json.str ⟨[c]⟩)
  | .obj fs => .ok (fs.map fun p => Json.str p.1)
  | _ => .error ()

/-- Python `v == "q"` for an optional JSON value (absent keys read as `None`):
true exactly for the equal string, no exception for other shapes. -/
def jsonEqStr : Option Json → String → Bool
  | some (.str t), q => t = q
  | _, _ => false

/-! ## Python string primitives (structural, kernel-evaluable) -/

/-- Python `str.strip()` whitespace set. -/
def isWs (c : Char) : Bool :=
  c = ' ' || c = '\t' || c = '\n' || c = '\r' || c = '\x0b' || c = '\x0c'

/-- Python `s.strip()`. -/
def pyStrip (s : String) : String :=
  ⟨((s.data.dropWhile isWs).reverse.dropWhile isWs).reverse⟩

/-- `p` is a prefix of the second list. -/
def startsWithL : List Char → List Char → Bool
  | [], _ => true
  | _ :: _, [] => false
  | a :: p, b :: s => a = b && startsWithL p s

/-- Python `s.startswith(p)`. -/
def pyStartsWith (s p : String) : Bool := startsWithL p.data s.data

/-- Occurrence of `needle` anywhere in the list (Python `needle in hay`). -/
def containsSubL (needle : List Char) : List Char → Bool
  | [] => needle.isEmpty
  | c :: t => startsWithL needle (c :: t) || containsSubL needle t

/-- Python `sub in s`. -/
def containsSub (s sub : String) : Bool := containsSubL sub.data s.data

/-- Characters before the first occurrence of `needle` (whole list if none):
Python `s.split(needle)[0]` for a nonempty separator. -/
def takeUntilSubL (needle : List Char) : List Char → List Char
  | [] => []
  | c :: t => if startsWithL needle (c :: t) then [] else c :: takeUntilSubL needle t

/-- Python `s.split(sep)[0]` for a nonempty separator. -/
def splitHead (s sep : String) : String := ⟨takeUntilSubL sep.data s.data⟩

/-- Python `c in s` for a single character. -/
def containsChar (s : String) (c : Char) : Bool := s.data.any fun x => x = c

/-- Python `s[:n]` (by code point). -/
def strTake (s : String) (n : Nat) : String := ⟨s.data.take n⟩

/-- Python code-point comparison of characters. -/
def charLtB (a b : Char) : Bool := a.toNat < b.toNat

/-- Python lexicographic `<` on strings, as lists of code points. -/
def listLtB : List Char → List Char → Bool
  | [], [] => false
  | [], _ :: _ => true
  | _ :: _, [] => false
  | a :: as, b :: bs =>
    if charLtB a b then true
    else if charLtB b a then false
    else listLtB as bs

/-- Python `a < b` on strings. -/
def strLtB (a b : String) : Bool := listLtB a.data b.data

/-! ## The regex `<ide_[^>]*>.*?</ide_[^>]*>` with `re.DOTALL`, and its
`re.sub(..., '', text)` semantics (leftmost match, non-overlapping, continue
after each match). A greedy `[^>]*>` consumes exactly up to and including the
next `>`, and the non-greedy `.*?` stops at the earliest position where the
closing tag matches. -/

/-- Consume characters up to and including the next `>`; `none` if there is no
`>` (the tag pattern then cannot match here). -/
def dropToGt : List Char → Option (List Char)
  | [] => none
  | c :: t => if c = '>' then some t else dropToGt t

/-- Match `<ide_[^>]*>` at the head, returning the rest. -/
def matchOpenTag (s : List Char) : Option (List Char) :=
  if startsWithL "<ide_".data s then dropToGt (s.drop 5) else none

/-- Match `</ide_[^>]*>` at the head, returning the rest. -/
def matchCloseTag (s : List Char) : Option (List Char) :=
  if startsWithL "</ide_".data s then dropToGt (s.drop 6) else none

/-- Earliest position at which the closing tag matches (the non-greedy `.*?`),
returning the rest after it. -/
def findClose : List Char → Option (List Char)
  | [] => none
  | c :: t =>
    match matchCloseTag (c :: t) with
    | some rest => some rest
    | none => findClose t

/-- Fuel-based scan (each step strictly shortens the list, so fuel = length is
always enough; fuel keeps the recursion structural and kernel-evaluable). -/
def removeIdeGo : Nat → List Char → List Char
  | _, [] => []
  | 0, s => s
  | fuel + 1, c :: t =>
    match matchOpenTag (c :: t) with
    | some afterOpen =>
      match findClose afterOpen with
      | some afterClose => removeIdeGo fuel afterClose
      | none => c :: removeIdeGo fuel t
    | none => c :: removeIdeGo fuel t

/-- `re.sub(r'<ide_[^>]*>.*?</ide_[^>]*>', '', s, flags=re.DOTALL)`. -/
def removeIdeTags (s : String) : String := ⟨removeIdeGo s.data.length s.data⟩

/-! ## The regex `^[^\n]+\n\n` used by the rename rewrite. Anchored at the
start of the string (no `re.MULTILINE`), so `re.sub(..., '', old_text)` removes
at most one leading block: one or more non-newline characters followed by a
blank line. The greedy `[^\n]+` cannot backtrack over a newline, so the match
succeeds exactly when the first newline of the string is at index ≥ 1 and is
immediately followed by a second newline. -/

/-- After one or more leading non-newline characters: succeed at the first
newline exactly when it is doubled, returning the rest. -/
def dropTitleRest : List Char → Option (List Char)
  | [] => none
  | c :: t =>
    if c = '\n' then
      match t with
      | '\n' :: r => some r
      | _ => none
    else dropTitleRest t

/-- `re.sub(r'^[^\n]+\n\n', '', s)`. -/
def stripTitleBlock (s : String) : String :=
  match s.data with
  | [] => s
  | c :: t =>
    if c = '\n' then s
    else
      match dropTitleRest t with
      | some r => ⟨r⟩
      | none => s

/-! ## json.dumps(entry, ensure_ascii=False) with default separators -/

/-- Lower-case hex digit. -/
def hexDigit (n : Nat) : Char :=
  if n < 10 then Char.ofNat ('0'.toNat + n) else Char.ofNat ('a'.toNat + (n - 10))

/-- Escaping of one character in a JSON string under `ensure_ascii=False`:
only the two mandatory escapes and control characters; non-ASCII characters
are emitted literally. -/
def escapeChar (c : Char) : List Char :=
  if c = '"' then ['\\', '"']
  else if c = '\\' then ['\\', '\\']
  else if c = '\n' then ['\\', 'n']
  else if c = '\t' then ['\\', 't']
  else if c = '\r' then ['\\', 'r']
  else if c = '\x08' then ['\\', 'b']
  else if c = '\x0c' then ['\\', 'f']
  else if c.toNat < 32 then
    ['\\', 'u', '0', '0', hexDigit (c.toNat / 16), hexDigit (c.toNat % 16)]
  else [c]

/-- Serialized JSON string contents. -/
def escapeStr (s : String) : String := ⟨(s.data.map escapeChar).flatten⟩

mutual
/-- `json.dumps(j, ensure_ascii=False)` with the default `(', ', ': ')`
separators. -/
def Json.dumps : Json → String
  | .null => "null"
  | .bool true => "true"
  | .bool false => "false"
  | .num n => toString n
  | .str s => "\"" ++ escapeStr s ++ "\""
  | .arr xs => "[" ++ dumpsItems xs ++ "]"
  | .obj fs => "\x7b" ++ dumpsFields fs ++ "\x7d"

/-- Comma-space separated serialization of array items. -/
def dumpsItems : List Json → String
  | [] => ""
  | [x] => Json.dumps x
  | x :: y :: t => Json.dumps x ++ ", " ++ dumpsItems (y :: t)

/-- Comma-space separated serialization of object fields with the `': '`
key separator. -/
def dumpsFields : List (String × Json) → String
  | [] => ""
  | [(k, v)] => "\"" ++ escapeStr k ++ "\": " ++ Json.dumps v
  | (k, v) :: p :: t =>
    "\"" ++ escapeStr k ++ "\": " ++ Json.dumps v ++ ", " ++ dumpsFields (p :: t)
end

/-! ## Transcript lines and files -/

/-- One line as yielded by Python text-mode iteration over the file: `raw` is
the line text (with its terminator, except possibly for the last line), and
`decoded` is `json.loads(raw.strip())`, `none` when decoding raises
`json.JSONDecodeError`. -/
structure Line where
  raw : String
  decoded : Option Json

/-- A session file of a project directory: its file name and its lines. -/
structure TFile where
  name : String
  lines : List Line

/-- `pathlib.Path.stem`: the file name without its last dot-suffix (a single
leading dot is not a suffix). -/
def stemAux : List Char → Option (List Char)
  | [] => none
  | c :: t => if c = '.' then some t else stemAux t

/-- The stem of a file name (`"abc.jsonl"` ↦ `"abc"`). -/
def stemOf (name : String) : String :=
  match stemAux name.data.reverse with
  | some r => if r.isEmpty then name else ⟨r.reverse⟩
  | none => name

/-! ## parse_session_summary -/

/-- The summary dict built by `parse_session_summary`. Note that every summary
carries all five keys; in particular `updated_at` is always present, possibly
as `None` (`none`). -/
structure SummaryInfo where
  session_id : String
  title : String
  message_count : Nat
  created_at : Option String
  updated_at : Option String
deriving Repr, DecidableEq

/-- Mutable loop state of the `parse_session_summary` scan. -/
structure ScanInfo where
  message_count : Nat
  created_at : Option String
  updated_at : Option String
  firstUserContent : Option String

/-- Reading `entry.get('timestamp', '')` followed by the source's truthiness
test: absent keys and falsy values (including `''` and `null`) are skipped.
A truthy non-string value is modelled as a scan failure: Python would either
raise `TypeError` at the first `<`/`>` comparison against a string bound or
poison `created_at`/`updated_at` with a non-string; transcripts with such
timestamps are outside the model. -/
def pyGetTimestamp (e : Json) : Except Unit (Option String) :=
  match e with
  | .obj fs =>
    match lookupField fs "timestamp" with
    | none => .ok none
    | some (.str s) => .ok (if s.data.isEmpty then none else some s)
    | some v => if v.truthy then .error () else .ok none
  | _ => .error ()

/-- The cleaning applied to a candidate title text: `strip`, remove
`<ide_...>...</ide_...>` blocks, `strip` again. -/
def cleanText (s : String) : String := pyStrip (removeIdeTags (pyStrip s))

/-- One iteration of the content-item loop in `parse_session_summary`:
a dict item of type `text` yields its cleaned text when nonempty. A
non-string `text` value makes `.strip()` raise `AttributeError`. -/
def cleanItemE (item : Json) : Except Unit (Option String) :=
  match item with
  | .obj fs =>
    if jsonEqStr (lookupField fs "type") "text" then
      match lookupField fs "text" with
      | some (.str s) =>
        let c := cleanText s
        .ok (if c.data.isEmpty then none else some c)
      | none => .ok none
      | some _ => .error ()
    else .ok none
  | _ => .ok none

/-- The content-item loop: first item with a nonempty cleaned text. -/
def itemsFirstTextE : List Json → Except Unit (Option String)
  | [] => .ok none
  | item :: rest =>
    match cleanItemE item with
    | .error e => .error e
    | .ok (some t) => .ok (some t)
    | .ok none => itemsFirstTextE rest

/-- Extraction of the candidate first-user text from one `user` record:
`entry.get('message', {}).get('content', [])` iterated by the item loop. -/
def userTextE (e : Json) : Except Unit (Option String) := do
  let msg ← pyGetD e "message" (.obj [])
  let content ← pyGetD msg "content" (.arr [])
  let items ← pyIter content
  itemsFirstTextE items

/-- The running min/max fold of a (possibly skipped) timestamp into
`created_at`/`updated_at`. -/
def tsFold (st : ScanInfo) (ts? : Option String) : ScanInfo :=
  match ts? with
  | none => st
  | some ts =>
    { st with
      created_at :=
        match st.created_at with
        | none => some ts
        | some c => if strLtB ts c then some ts else some c
      updated_at :=
        match st.updated_at with
        | none => some ts
        | some u => if strLtB u ts then some ts else some u }

/-- Processing of one decoded record in the `parse_session_summary` loop. -/
def parseEntry (st : ScanInfo) (e : Json) : Except Unit ScanInfo := do
  let et ← pyGetOpt e "type"
  if jsonEqStr et "user" || jsonEqStr et "assistant" then do
    let st := { st with message_count := st.message_count + 1 }
    let ts? ← pyGetTimestamp e
    let st := tsFold st ts?
    if jsonEqStr et "user" && st.firstUserContent.isNone then do
      match ← userTextE e with
      | some t => pure { st with firstUserContent := some t }
      | none => pure st
    else pure st
  else pure st

/-- The line loop of `parse_session_summary`: blank lines and undecodable lines
are skipped; an exception from record processing aborts the whole parse (only
`json.JSONDecodeError` is caught locally in the source). -/
def parseLines : List Line → ScanInfo → Except Unit ScanInfo
  | [], st => .ok st
  | l :: ls, st =>
    if (pyStrip l.raw).data.isEmpty then parseLines ls st
    else
      match l.decoded with
      | none => parseLines ls st
      | some e =>
        match parseEntry st e with
        | .error e' => .error e'
        | .ok st' => parseLines ls st'

/-- The truncation rule applied to a found first-user text. -/
def truncateTitle (t : String) : String :=
  if containsSub t "\n\n" then strTake (splitHead t "\n\n") 100
  else if containsChar t '\n' then strTake (splitHead t "\n") 100
  else strTake t 100

/-- The fallback title `"Session " + session_id[:8]`. -/
def defaultTitle (sessionId : String) : String := "Session " ++ strTake sessionId 8

/-- `parse_session_summary`: `none` both when the scan raised (the source
returns `None` from its `except Exception` handler) and when the file holds
no dialogue records (`message_count == 0`). -/
def parse_session_summary (sessionId : String) (lines : List Line) : Option SummaryInfo :=
  match parseLines lines ⟨0, none, none, none⟩ with
  | .error _ => none
  | .ok st =>
    if st.message_count > 0 then
      some
        { session_id := sessionId
          title :=
            match st.firstUserContent with
            | none => defaultTitle sessionId
            | some t => truncateTitle t
          message_count := st.message_count
          created_at := st.created_at
          updated_at := st.updated_at }
    else none

/-! ## get_sessions -/

/-- The sessions list in file-enumeration order, skipping `agent-` transcripts
and files without a summary. -/
def collectSummaries : List TFile → List SummaryInfo
  | [] => []
  | f :: fs =>
    if pyStartsWith f.name "agent-" then collectSummaries fs
    else
      match parse_session_summary (stemOf f.name) f.lines with
      | some info => info :: collectSummaries fs
      | none => collectSummaries fs

/-- The sort key `s.get("updated_at", "")`. Every summary dict contains the
key `updated_at` (possibly with value `None`), so the `""` default is dead;
the key value is the stored optional string. -/
def sortKey (s : SummaryInfo) : Option String := s.updated_at

/-- Total string view of the key used once all keys are known to be strings. -/
def keyStr (s : SummaryInfo) : String := (sortKey s).getD ""

/-- Stable descending insertion of an earlier element into the sorted later
elements: it walks past elements with a strictly greater key and stops before
the first element whose key is not strictly greater, so it never passes an
equal-key element — earlier elements stay before later equal-key ones, as in
CPython's stable sort. -/
def insertDesc (x : SummaryInfo) : List SummaryInfo → List SummaryInfo
  | [] => [x]
  | y :: t => if strLtB (keyStr x) (keyStr y) then y :: insertDesc x t else x :: y :: t

/-- Stable sort, descending by key. -/
def sortDesc : List SummaryInfo → List SummaryInfo
  | [] => []
  | x :: t => insertDesc x (sortDesc t)

/-- CPython `sorted(sessions, key=lambda s: s.get("updated_at", ""),
reverse=True)`. With at least two elements, CPython's sort compares every
element at least once (run detection alone compares all adjacent pairs), so a
`None` key value raises `TypeError`; with all keys strings the result is the
stable descending order. Zero- or one-element lists involve no comparison. -/
def pySortedDesc (l : List SummaryInfo) : Except Unit (List SummaryInfo) :=
  if l.length ≤ 1 then .ok l
  else if l.any fun s => (sortKey s).isNone then .error ()
  else .ok (sortDesc l)

/-- `get_sessions` for one project, over the project's file list. -/
def get_sessions (files : List TFile) : Except Unit (List SummaryInfo) :=
  pySortedDesc (collectSummaries files)

/-! ## rename_session -/

/-- The enqueue-content item loop: first text item whose text is truthy and
does not start (after stripping) with the `<ide_` marker. A truthy non-string
`text` value makes `.strip()` raise `AttributeError`. -/
def captureItem : List Json → Except Unit (Option String)
  | [] => .ok none
  | item :: rest =>
    match item with
    | .obj fs =>
      if jsonEqStr (lookupField fs "type") "text" then
        match lookupField fs "text" with
        | some (.str s) =>
          if s.data.isEmpty then captureItem rest
          else if pyStartsWith (pyStrip s) "<ide_" then captureItem rest
          else .ok (some s)
        | none => captureItem rest
        | some v => if v.truthy then .error () else captureItem rest
      else captureItem rest
    | _ => captureItem rest

/-- The `queue-operation` handling of the scan loop: on an `enqueue` record,
the first qualifying text item of its content, else nothing. -/
def captureEnqueue (e : Json) : Except Unit (Option String) := do
  let op ← pyGetOpt e "operation"
  if jsonEqStr op "enqueue" then do
    let content ← pyGetD e "content" (.arr [])
    let items ← pyIter content
    captureItem items
  else pure none

/-- The first pass of `rename_session`: tracks the index of the first `user`
record and the at-most-once captured enqueue message. Blank and undecodable
lines are skipped (but still occupy an index); any other exception aborts. -/
def scanAux : List Line → Nat → Option Nat → Option String →
    Except Unit (Option Nat × Option String)
  | [], _, fu, om => .ok (fu, om)
  | l :: ls, i, fu, om =>
    if (pyStrip l.raw).data.isEmpty then scanAux ls (i + 1) fu om
    else
      match l.decoded with
      | none => scanAux ls (i + 1) fu om
      | some e =>
        match pyGetOpt e "type" with
        | .error e' => .error e'
        | .ok et =>
          match
            (if jsonEqStr et "queue-operation" && om.isNone then captureEnqueue e
             else .ok om : Except Unit (Option String)) with
          | .error e' => .error e'
          | .ok om' =>
            scanAux ls (i + 1)
              (if jsonEqStr et "user" && fu.isNone then some i else fu) om'

/-- The whole first pass, from the head of the file. -/
def scanLines (lines : List Line) : Except Unit (Option Nat × Option String) :=
  scanAux lines 0 none none

/-- The dict literal `{'type': 'text', 'text': s}` inserted by the enqueue
branch. -/
def textItem (s : String) : Json := .obj [("type", .str "text"), ("text", .str s)]

/-- Enqueue-branch search: index of the first text item whose text does not
start with the `<ide_` marker (an absent `text` field reads as `''`, which
does not start with the marker). -/
def findRealTextIdx : List Json → Nat → Except Unit (Option Nat)
  | [], _ => .ok none
  | item :: rest, i =>
    match item with
    | .obj fs =>
      if jsonEqStr (lookupField fs "type") "text" then
        match lookupField fs "text" with
        | some (.str s) =>
          if pyStartsWith (pyStrip s) "<ide_" then findRealTextIdx rest (i + 1)
          else .ok (some i)
        | none => .ok (some i)
        | some _ => .error ()
      else findRealTextIdx rest (i + 1)
    | _ => findRealTextIdx rest (i + 1)

/-- Enqueue-branch insertion position: one past the last `<ide_`-prefixed text
item (0 when there is none); the loop has no break and visits every item. -/
def insertPosAux : List Json → Nat → Nat → Except Unit Nat
  | [], _, acc => .ok acc
  | item :: rest, i, acc =>
    match item with
    | .obj fs =>
      if jsonEqStr (lookupField fs "type") "text" then
        match lookupField fs "text" with
        | some (.str s) =>
          if pyStartsWith (pyStrip s) "<ide_" then insertPosAux rest (i + 1) (i + 1)
          else insertPosAux rest (i + 1) acc
        | none => insertPosAux rest (i + 1) acc
        | some _ => .error ()
      else insertPosAux rest (i + 1) acc
    | _ => insertPosAux rest (i + 1) acc

/-- Enqueue-branch insertion position from the start of the item list. -/
def insertPosCalc (items : List Json) : Except Unit Nat := insertPosAux items 0 0

/-- `content_list[j]['text'] = txt`: in-place update of the dict at index `j`. -/
def setItemText (items : List Json) (j : Nat) (txt : String) : List Json :=
  items.set j ((items.getD j .null).setKey "text" (.str txt))

/-- The enqueue branch of the content merge: replace the text of the first
non-`<ide_` text item with `title + "\n\n" + msg`, or insert a fresh text item
after the last `<ide_`-prefixed one. `list.insert` on a non-list raises
`AttributeError` (string or dict iteration yields no dict item, so the replace
arm only ever fires on a list). -/
def mergeEnq (content : Json) (title msg : String) : Except Unit Json := do
  let items ← pyIter content
  match ← findRealTextIdx items 0 with
  | some j =>
    match content with
    | .arr xs => pure (.arr (setItemText xs j (title ++ "\n\n" ++ msg)))
    | _ => .error ()
  | none =>
    match content with
    | .arr xs => do
      let pos ← insertPosCalc xs
      pure (.arr (xs.insertIdx pos (textItem (title ++ "\n\n" ++ msg))))
    | _ => .error ()

/-- The no-enqueue text rewrite of one text item: strip a previously added
leading `title-line + blank line` block, then prepend the new title block. -/
def renameText (title old : String) : String := title ++ "\n\n" ++ stripTitleBlock old

/-- The no-enqueue branch loop over content items: only the first text item is
rewritten (an absent `text` field reads as `''`); a non-string `text` value
makes `re.sub` raise `TypeError`. -/
def mergeNoEnqItems (title : String) : List Json → Except Unit (List Json)
  | [] => .ok []
  | item :: rest =>
    match item with
    | .obj fs =>
      if jsonEqStr (lookupField fs "type") "text" then
        match lookupField fs "text" with
        | some (.str s) => .ok ((Json.obj fs).setKey "text" (.str (renameText title s)) :: rest)
        | none => .ok ((Json.obj fs).setKey "text" (.str (renameText title "")) :: rest)
        | some _ => .error ()
      else
        match mergeNoEnqItems title rest with
        | .error e => .error e
        | .ok rest' => .ok (item :: rest')
    | _ =>
      match mergeNoEnqItems title rest with
      | .error e => .error e
      | .ok rest' => .ok (item :: rest')

/-- The no-enqueue branch of the content merge: iterating a string yields
characters and iterating a dict yields keys, none of which are dict items, so
those shapes pass through unchanged; non-iterable content raises `TypeError`. -/
def mergeNoEnq (content : Json) (title : String) : Except Unit Json :=
  match content with
  | .arr xs =>
    match mergeNoEnqItems title xs with
    | .error e => .error e
    | .ok xs' => .ok (.arr xs')
  | .str s => .ok (.str s)
  | .obj fs => .ok (.obj fs)
  | _ => .error ()

/-- Steps 4–6 on the decoded first-user record: read
`entry.get('message', {}).get('content', [])`, merge, then
`entry['message']['content'] = content_list` — which raises `KeyError` when
the record has no `message` key (the `.get` default was a fresh dict) and
`TypeError` when `entry['message']` is not a dict. -/
def rewriteEntry (e : Json) (title : String) (om : Option String) : Except Unit Json := do
  let msg ← pyGetD e "message" (.obj [])
  let content ← pyGetD msg "content" (.arr [])
  let content' ←
    match om with
    | some m => mergeEnq content title m
    | none => mergeNoEnq content title
  match e.getKey? "message" with
  | none => .error ()
  | some (.obj mfs) => pure (e.setKey "message" ((Json.obj mfs).setKey "content" content'))
  | some _ => .error ()

/-- `rename_session` over the in-memory line list: `none` is the `False`
result (no user record, or any exception caught by the outer handler); on
success the new sequence of raw lines is the old one with the single line at
the first-user index replaced by the re-serialized record plus `'\n'`. -/
def rename_session (lines : List Line) (newTitle : String) : Option (List String) :=
  match scanLines lines with
  | .error _ => none
  | .ok (fu, om) =>
    match fu with
    | none => none
    | some i =>
      match (lines.getD i ⟨"", none⟩).decoded with
      | none => none
      | some e =>
        match rewriteEntry e newTitle om with
        | .error _ => none
        | .ok e' => some ((lines.map Line.raw).set i (Json.dumps e' ++ "\n"))

/-! ## check_session_status -/

/-- The status dict built by `check_session_status`. -/
structure SessionStatus where
  is_empty : Bool
  has_invalid_api_key : Bool
  has_messages : Bool
  file_size : Nat
deriving Repr, DecidableEq

/-- A session file as seen by the status inspector: `stat` is the file size
when the file exists, and `content` is the line list, with `.error` modelling
an I/O failure while opening or reading. -/
structure SessFile where
  name : String
  stat : Option Nat
  content : Except Unit (List Line)

/-- Processing of one decoded record in the status scan: a `summary` record
whose text contains `"Invalid API key"` sets the invalid flag (`in` on a
non-string raises `TypeError`); a `user`/`assistant` record sets
`has_messages` and clears `is_empty`. -/
def statusEntry (st : SessionStatus) (e : Json) : Except Unit SessionStatus := do
  let et ← pyGetOpt e "type"
  let st ←
    if jsonEqStr et "summary" then do
      match ← pyGetD e "summary" (.str "") with
      | .str s =>
        pure (if containsSub s "Invalid API key" then { st with has_invalid_api_key := true } else st)
      | _ => .error ()
    else pure st
  if jsonEqStr et "user" || jsonEqStr et "assistant" then
    pure { st with is_empty := false, has_messages := true }
  else pure st

/-- The status line loop: blank and undecodable lines are skipped; any other
exception lands in the outer `except Exception: pass`, which abandons the rest
of the file and keeps the flags accumulated so far. -/
def statusScan : List Line → SessionStatus → SessionStatus
  | [], st => st
  | l :: ls, st =>
    if (pyStrip l.raw).data.isEmpty then statusScan ls st
    else
      match l.decoded with
      | none => statusScan ls st
      | some e =>
        match statusEntry st e with
        | .error _ => st
        | .ok st' => statusScan ls st'

/-- `check_session_status`: a missing or zero-size file short-circuits with
the defaults; a read failure also keeps the defaults (with the actual size). -/
def check_session_status (f : SessFile) : SessionStatus :=
  let st : SessionStatus := ⟨true, false, false, f.stat.getD 0⟩
  match f.stat with
  | none => st
  | some n =>
    if n = 0 then st
    else
      match f.content with
      | .error _ => st
      | .ok ls => statusScan ls st

/-! ## find_cleanable_sessions -/

/-- One candidate entry `{project_name, session_id, file_size}`. -/
structure CleanEntry where
  project_name : String
  session_id : String
  file_size : Nat
deriving Repr, DecidableEq

/-- The result dict of `find_cleanable_sessions`. -/
structure CleanResult where
  empty_sessions : List CleanEntry
  invalid_api_key_sessions : List CleanEntry
  total_count : Nat
deriving Repr, DecidableEq

/-- The per-project file loop: skip `agent-` files, inspect each status, and
append to the invalid bucket when `has_invalid_api_key and not has_messages`,
else to the empty bucket when `is_empty or file_size == 0`. -/
def findCleanAux (projectName : String) : List SessFile → CleanResult → CleanResult
  | [], acc => acc
  | f :: fs, acc =>
    if pyStartsWith f.name "agent-" then findCleanAux projectName fs acc
    else
      let status := check_session_status f
      let info : CleanEntry := ⟨projectName, stemOf f.name, status.file_size⟩
      let acc' :=
        if status.has_invalid_api_key && !status.has_messages then
          { acc with invalid_api_key_sessions := acc.invalid_api_key_sessions ++ [info] }
        else if status.is_empty || status.file_size == 0 then
          { acc with empty_sessions := acc.empty_sessions ++ [info] }
        else acc
      findCleanAux projectName fs acc'

/-- `find_cleanable_sessions` over the enumerated projects (each a directory
name with its `*.jsonl` files; directory traversal itself is the external
collaborator). -/
def find_cleanable_sessions (projects : List (String × List SessFile)) : CleanResult :=
  let r := projects.foldl (fun acc p => findCleanAux p.1 p.2 acc) ⟨[], [], 0⟩
  { r with total_count := r.empty_sessions.length + r.invalid_api_key_sessions.length }

/-! ## delete_session -/

/-- The file-system state visible to one `delete_session` call: the content of
`<project>/<session_id>.jsonl` (`none` when missing), the backup directory
contents keyed by file name, and an oracle for an `OSError` out of
`mkdir`/`rename` (permissions, cross-device failure, ...). -/
structure DeleteFs where
  sessionFile : Option (List Line)
  bak : List (String × List Line)
  moveRaises : Bool

/-- The backup file name `{project_name}_{session_id}.jsonl`. -/
def backupName (projectName sessionId : String) : String :=
  projectName ++ "_" ++ sessionId ++ ".jsonl"

/-- Directory-entry update: POSIX `rename` silently replaces an existing
regular file at the target path. -/
def setBakEntry : List (String × List Line) → String → List Line →
    List (String × List Line)
  | [], k, v => [(k, v)]
  | (k', v') :: t, k, v => if k' = k then (k, v) :: t else (k', v') :: setBakEntry t k v

/-- Lookup in the backup directory. -/
def lookupBak : List (String × List Line) → String → Option (List Line)
  | [], _ => none
  | (k', v') :: t, k => if k' = k then some v' else lookupBak t k

/-- `delete_session`: a missing file returns `False` untouched; otherwise the
move to `.bak` happens with no try/except around it, so an `OSError` out of
`mkdir`/`rename` propagates to the caller (`.error`). -/
def delete_session (projectName sessionId : String) (fs : DeleteFs) :
    Except Unit (Bool × DeleteFs) :=
  match fs.sessionFile with
  | none => .ok (false, fs)
  | some dataLines =>
    if fs.moveRaises then .error ()
    else
      .ok (true,
        { sessionFile := none
          bak := setBakEntry fs.bak (backupName projectName sessionId) dataLines
          moveRaises := fs.moveRaises })

/-! ## Declarative characterizations (the searches, phrased as the spec does) -/

/-- A line holding a `user` record: nonblank, decodable, `type` equal to
`"user"`. -/
def isUserLineB (l : Line) : Bool :=
  !(pyStrip l.raw).data.isEmpty &&
    (match l.decoded with
     | some e => jsonEqStr (e.getKey? "type") "user"
     | none => false)

/-- Index of the first `user`-record line. -/
def firstUser : List Line → Option Nat
  | [] => none
  | l :: ls => if isUserLineB l then some 0 else (firstUser ls).map (· + 1)

/-- The enqueue text contributed by one line, ignoring error outcomes (which
abort the scan as a whole and are excluded by any success hypothesis). -/
def capturePure (l : Line) : Option String :=
  if (pyStrip l.raw).data.isEmpty then none
  else
    match l.decoded with
    | some e =>
      if jsonEqStr (e.getKey? "type") "queue-operation" then
        match captureEnqueue e with
        | .ok v => v
        | .error _ => none
      else none
    | none => none

/-- The first qualifying enqueue text of the file, in line order. -/
def firstEnqueueText : List Line → Option String
  | [] => none
  | l :: ls =>
    match capturePure l with
    | some t => some t
    | none => firstEnqueueText ls

/-- A content item contributes a title candidate when it is a dict of type
`text` whose cleaned text is nonempty. -/
def specItemText (item : Json) : Option String :=
  match item with
  | .obj fs =>
    if jsonEqStr (lookupField fs "type") "text" then
      match lookupField fs "text" with
      | some (.str s) =>
        let c := cleanText s
        if c.data.isEmpty then none else some c
      | _ => none
    else none
  | _ => none

/-- Pure view of Python iteration: non-iterable values yield nothing (the
effectful path raises there instead, aborting the parse). -/
def pyIterPure (j : Json) : List Json :=
  match pyIter j with
  | .ok xs => xs
  | .error _ => []

/-- The content items of a record, via
`entry.get('message', {}).get('content', [])`. -/
def specContentItems (e : Json) : List Json :=
  pyIterPure ((((e.getKey? "message").getD (.obj [])).getKey? "content").getD (.arr []))

/-- First nonempty cleaned text over a list of content items. -/
def itemsFirstTextPure : List Json → Option String
  | [] => none
  | item :: rest =>
    match specItemText item with
    | some t => some t
    | none => itemsFirstTextPure rest

/-- The title candidate contributed by one line: it must hold a `user` record,
and the candidate is the first nonempty cleaned text among its content items. -/
def specUserText (l : Line) : Option String :=
  if (pyStrip l.raw).data.isEmpty then none
  else
    match l.decoded with
    | some e =>
      if jsonEqStr (e.getKey? "type") "user" then itemsFirstTextPure (specContentItems e)
      else none
    | none => none

/-- The first title candidate of the file, scanning user records in file order
and content items in sequence order. -/
def firstUserText : List Line → Option String
  | [] => none
  | l :: ls =>
    match specUserText l with
    | some t => some t
    | none => firstUserText ls

/-- The title the listing should show, per the (amended) extraction rule. -/
def specTitle (sessionId : String) (lines : List Line) : String :=
  match firstUserText lines with
  | none => defaultTitle sessionId
  | some t => truncateTitle t

/-- A content item that is a dict of type `text` (the shape the no-enqueue
rewrite loop touches). -/
def isTextItemB (item : Json) : Bool :=
  match item with
  | .obj fs => jsonEqStr (lookupField fs "type") "text"
  | _ => false

/-- A text item whose (stripped) text starts with the `<ide_` marker. -/
def isIdeTextB (item : Json) : Bool :=
  match item with
  | .obj fs =>
    jsonEqStr (lookupField fs "type") "text" &&
      (match lookupField fs "text" with
       | some (.str s) => pyStartsWith (pyStrip s) "<ide_"
       | _ => false)
  | _ => false

/-- Index of the last `<ide_`-prefixed text item, if any. -/
def lastIdeIdx : List Json → Option Nat
  | [] => none
  | item :: rest =>
    match lastIdeIdx rest with
    | some j => some (j + 1)
    | none => if isIdeTextB item then some 0 else none

/-- The invalid-credential bucket condition of the cleanup planner. -/
def invalidCondB (f : SessFile) : Bool :=
  (check_session_status f).has_invalid_api_key && !(check_session_status f).has_messages

/-- The empty bucket condition of the cleanup planner (checked only after the
invalid bucket). -/
def emptyCondB (f : SessFile) : Bool :=
  !invalidCondB f &&
    ((check_session_status f).is_empty || (check_session_status f).file_size == 0)

/-- The files the cleanup planner inspects, paired with their project name:
every non-`agent-` file of every enumerated project, in order. -/
def eligibleFiles (projects : List (String × List SessFile)) : List (String × SessFile) :=
  projects.flatMap fun p =>
    (p.2.filter fun f => !pyStartsWith f.name "agent-").map fun f => (p.1, f)

/-- The candidate entry recorded for a file. -/
def entryOf (q : String × SessFile) : CleanEntry :=
  ⟨q.1, stemOf q.2.name, (check_session_status q.2).file_size⟩

/-! ## Helper lemmas -/

/-- A freshly set backup entry is found under its name. -/
theorem lookupBak_setBakEntry (b : List (String × List Line)) (k : String) (v : List Line) :
    lookupBak (setBakEntry b k v) k = some v := by
  induction b with
  | nil => simp [setBakEntry, lookupBak]
  | cons hd t ih =>
    obtain ⟨k', v'⟩ := hd
    by_cases h : k' = k
    · simp [setBakEntry, lookupBak, h]
    · simp [setBakEntry, lookupBak, h, ih]

/-- A scan over lines none of which decode leaves the status untouched. -/
theorem statusScan_undecodable (ls : List Line) (st : SessionStatus)
    (h : ∀ l ∈ ls, l.decoded = none) : statusScan ls st = st := by
  induction ls with
  | nil => rfl
  | cons l t ih =>
    have hl : l.decoded = none := h l (by simp)
    have ht : ∀ l' ∈ t, l'.decoded = none := fun l' hm => h l' (by simp [hm])
    by_cases hb : (pyStrip l.raw).data.isEmpty
    · simp [statusScan, hb, ih ht]
    · simp [statusScan, hb, hl, ih ht]

/-- The per-project cleanup loop appends exactly the filtered, classified
files to the two buckets and never touches `total_count`. -/
theorem findCleanAux_spec (p : String) (files : List SessFile) :
    ∀ acc, findCleanAux p files acc =
      { acc with
        empty_sessions := acc.empty_sessions ++
          ((files.filter fun f => !pyStartsWith f.name "agent-" && emptyCondB f).map
            fun f => entryOf (p, f))
        invalid_api_key_sessions := acc.invalid_api_key_sessions ++
          ((files.filter fun f => !pyStartsWith f.name "agent-" && invalidCondB f).map
            fun f => entryOf (p, f)) } := by
  induction files with
  | nil => intro acc; simp [findCleanAux]
  | cons f fs ih =>
    intro acc
    simp only [findCleanAux]
    by_cases hag : pyStartsWith f.name "agent-"
    · rw [if_pos hag, ih]
      have h1 : (!pyStartsWith f.name "agent-" && emptyCondB f) = false := by simp [hag]
      have h2 : (!pyStartsWith f.name "agent-" && invalidCondB f) = false := by simp [hag]
      simp [List.filter_cons, h1, h2]
    · rw [if_neg hag]
      by_cases hc : ((check_session_status f).has_invalid_api_key &&
          !(check_session_status f).has_messages) = true
      · have hinv : invalidCondB f = true := hc
        have h1 : (!pyStartsWith f.name "agent-" && emptyCondB f) = false := by
          simp [emptyCondB, hinv]
        have h2 : (!pyStartsWith f.name "agent-" && invalidCondB f) = true := by
          simp [hag, hinv]
        rw [if_pos hc, ih]
        simp [List.filter_cons, h1, h2, entryOf]
      · have hinv : invalidCondB f = false := by
          simpa [invalidCondB] using hc
        by_cases hemp : ((check_session_status f).is_empty ||
            (check_session_status f).file_size == 0) = true
        · have h1 : (!pyStartsWith f.name "agent-" && emptyCondB f) = true := by
            simp [hag, emptyCondB, hinv, hemp]
          have h2 : (!pyStartsWith f.name "agent-" && invalidCondB f) = false := by
            simp [hinv]
          rw [if_neg hc, if_pos hemp, ih]
          simp [List.filter_cons, h1, h2, entryOf]
        · have hemp' : ((check_session_status f).is_empty ||
              (check_session_status f).file_size == 0) = false := by simpa using hemp
          have h1 : (!pyStartsWith f.name "agent-" && emptyCondB f) = false := by
            simp [emptyCondB, hemp']
          have h2 : (!pyStartsWith f.name "agent-" && invalidCondB f) = false := by
            simp [hinv]
          rw [if_neg hc, if_neg hemp, ih]
          simp [List.filter_cons, h1, h2]

/-- The project fold of the cleanup planner accumulates the per-project
buckets over all eligible files in order. -/
theorem findClean_foldl_spec (ps : List (String × List SessFile)) :
    ∀ acc, ps.foldl (fun acc p => findCleanAux p.1 p.2 acc) acc =
      { acc with
        empty_sessions := acc.empty_sessions ++
          (((eligibleFiles ps).filter fun q => emptyCondB q.2).map entryOf)
        invalid_api_key_sessions := acc.invalid_api_key_sessions ++
          (((eligibleFiles ps).filter fun q => invalidCondB q.2).map entryOf) } := by
  induction ps with
  | nil => intro acc; simp [eligibleFiles]
  | cons p pt ih =>
    intro acc
    simp only [List.foldl_cons]
    rw [findCleanAux_spec, ih]
    simp [eligibleFiles, List.filter_append, List.map_append, List.filter_map,
      List.map_map, List.append_assoc, Function.comp, Bool.and_comm]

/-- C7: the cleanup planner's buckets are exactly the eligible files
satisfying the invalid-key condition `has_invalid_api_key ∧ ¬has_messages`
resp. the empty condition `(is_empty ∨ file_size = 0) ∧ ¬invalid`, and the two
conditions exclude each other, so no file lands in both buckets. -/
theorem cleanup_buckets_exclusive (ps : List (String × List SessFile)) :
    (find_cleanable_sessions ps).invalid_api_key_sessions =
      ((eligibleFiles ps).filter fun q => invalidCondB q.2).map entryOf ∧
    (find_cleanable_sessions ps).empty_sessions =
      ((eligibleFiles ps).filter fun q => emptyCondB q.2).map entryOf ∧
    ∀ f : SessFile, (invalidCondB f && emptyCondB f) = false := by
  refine ⟨?_, ?_, ?_⟩
  · simp [find_cleanable_sessions, findClean_foldl_spec]
  · simp [find_cleanable_sessions, findClean_foldl_spec]
  · intro f
    by_cases h : invalidCondB f = true <;> simp [emptyCondB, h]

/-- C8 counterexample: with the session file present, an I/O error out of the
backup move makes `delete_session` raise to its caller instead of returning a
`success=false` result. -/
theorem delete_move_error_propagates :
    delete_session "proj" "sess" ⟨some [], [], true⟩ = .error () := rfl

/-- C8 (amended): `delete_session` on a missing session file returns `False`
and leaves the file system (in particular the backup directory) untouched. -/
theorem delete_missing_returns_false (p sid : String) (fs : DeleteFs)
    (h : fs.sessionFile = none) : delete_session p sid fs = .ok (false, fs) := by
  simp [delete_session, h]

/-- Concrete run of `delete_missing_returns_false`. -/
theorem delete_missing_returns_false_witness :
    delete_session "proj" "sess" ⟨none, [("x.jsonl", [])], false⟩ =
      .ok (false, ⟨none, [("x.jsonl", [])], false⟩) :=
  delete_missing_returns_false "proj" "sess" ⟨none, [("x.jsonl", [])], false⟩ rfl

/-- C10: deleting a session whose backup name is already taken succeeds and
replaces the existing backup entry with the newly deleted file's content. -/
theorem delete_overwrites_existing_backup (p sid : String) (fs : DeleteFs)
    (dataLines old : List Line)
    (h1 : fs.sessionFile = some dataLines) (h2 : fs.moveRaises = false)
    (h3 : lookupBak fs.bak (backupName p sid) = some old) :
    delete_session p sid fs =
      .ok (true, ⟨none, setBakEntry fs.bak (backupName p sid) dataLines, false⟩) ∧
    lookupBak (setBakEntry fs.bak (backupName p sid) dataLines) (backupName p sid) =
      some dataLines := by
  refine ⟨?_, lookupBak_setBakEntry _ _ _⟩
  simp [delete_session, h1, h2]

/-- Concrete run of `delete_overwrites_existing_backup`: the old backup entry
(an empty file) is replaced by the new one-line content. -/
theorem delete_overwrites_existing_backup_witness :
    delete_session "proj" "sess" ⟨some [⟨"x", none⟩], [("proj_sess.jsonl", [])], false⟩ =
      .ok (true, ⟨none, [("proj_sess.jsonl", [⟨"x", none⟩])], false⟩) ∧
    lookupBak [("proj_sess.jsonl", [⟨"x", none⟩])] "proj_sess.jsonl" = some [⟨"x", none⟩] :=
  delete_overwrites_existing_backup "proj" "sess"
    ⟨some [⟨"x", none⟩], [("proj_sess.jsonl", [])], false⟩ [⟨"x", none⟩] [] rfl rfl rfl

/-- C9: an existing non-empty file whose read raises, or whose lines all fail
to decode, keeps the default status flags with the actual size, and is then
bucketed as an empty cleanup candidate. -/
theorem status_unreadable_empty_bucket (p : String) (f : SessFile) (n : Nat)
    (h1 : f.stat = some n) (h2 : n ≠ 0)
    (h3 : f.content = .error () ∨ ∃ ls, f.content = .ok ls ∧ ∀ l ∈ ls, l.decoded = none)
    (h4 : pyStartsWith f.name "agent-" = false) :
    check_session_status f = ⟨true, false, false, n⟩ ∧
    find_cleanable_sessions [(p, [f])] = ⟨[⟨p, stemOf f.name, n⟩], [], 1⟩ := by
  have hst : check_session_status f = ⟨true, false, false, n⟩ := by
    rcases h3 with h3 | ⟨ls, hls, hdec⟩
    · simp [check_session_status, h1, h2, h3]
    · simp [check_session_status, h1, h2, hls, statusScan_undecodable ls _ hdec]
  refine ⟨hst, ?_⟩
  simp [find_cleanable_sessions, findCleanAux, h4, hst]

/-- Concrete run of `status_unreadable_empty_bucket` on an unreadable file. -/
theorem status_unreadable_empty_bucket_witness :
    check_session_status ⟨"s1.jsonl", some 5, .error ()⟩ = ⟨true, false, false, 5⟩ ∧
    find_cleanable_sessions [("proj", [⟨"s1.jsonl", some 5, .error ()⟩])] =
      ⟨[⟨"proj", "s1", 5⟩], [], 1⟩ :=
  status_unreadable_empty_bucket "proj" ⟨"s1.jsonl", some 5, .error ()⟩ 5 rfl
    (by decide) (Or.inl rfl) (by decide)

/-! ## Order facts about the Python string comparison -/

/-- Lexicographic `<` is asymmetric. -/
theorem listLtB_asymm : ∀ a b : List Char, listLtB a b = true → listLtB b a = false := by
  intro a
  induction a with
  | nil =>
    intro b h
    cases b with
    | nil => simp [listLtB] at h
    | cons y ys => simp [listLtB]
  | cons x xs ih =>
    intro b h
    cases b with
    | nil => simp [listLtB] at h
    | cons y ys =>
      simp only [listLtB] at h ⊢
      by_cases h1 : charLtB x y = true
      · have h2 : charLtB y x = false := by
          simp [charLtB] at h1 ⊢
          omega
        simp [h1, h2]
      · by_cases h2 : charLtB y x = true
        · simp [h1, h2] at h
        · simp only [h1, h2, if_false, Bool.false_eq_true] at h ⊢
          exact ih ys h

/-- Lexicographic `<` is connected: `a < c` forces `a < b` or `b < c`. -/
theorem listLtB_conn : ∀ a b c : List Char, listLtB a c = true →
    listLtB a b = true ∨ listLtB b c = true := by
  intro a
  induction a with
  | nil =>
    intro b c h
    cases c with
    | nil => simp [listLtB] at h
    | cons z zs =>
      cases b with
      | nil => right; simp [listLtB]
      | cons y ys => left; simp [listLtB]
  | cons x xs ih =>
    intro b c h
    cases c with
    | nil => simp [listLtB] at h
    | cons z zs =>
      cases b with
      | nil => right; simp [listLtB]
      | cons y ys =>
        simp only [listLtB] at h ⊢
        by_cases hxz : charLtB x z = true
        · by_cases hxy : charLtB x y = true
          · left; simp [hxy]
          · right
            have hyz : charLtB y z = true := by
              simp [charLtB] at hxz hxy ⊢
              omega
            simp [hyz]
        · by_cases hzx : charLtB z x = true
          · simp [hxz, hzx] at h
          · simp only [hxz, hzx, if_false, Bool.false_eq_true] at h
            by_cases hxy : charLtB x y = true
            · left; simp [hxy]
            · by_cases hyx : charLtB y x = true
              · right
                have hyz : charLtB y z = true := by
                  simp [charLtB] at hxz hzx hyx ⊢
                  omega
                simp [hyz]
              · have hyz : charLtB y z = false := by
                  simp [charLtB] at hxz hzx hyx ⊢
                  omega
                have hzy : charLtB z y = false := by
                  simp [charLtB] at hxz hzx hxy hyx ⊢
                  omega
                rcases ih ys zs h with h' | h'
                · left; simp [hxy, hyx, h']
                · right; simp [hyz, hzy, h']

/-! ## Stable descending sort facts -/

/-- Insertion permutes. -/
theorem insertDesc_perm (x : SummaryInfo) : ∀ l, List.Perm (insertDesc x l) (x :: l) := by
  intro l
  induction l with
  | nil => simp [insertDesc]
  | cons y t ih =>
    simp only [insertDesc]
    by_cases hc : strLtB (keyStr x) (keyStr y) = true
    · rw [if_pos hc]
      exact (ih.cons y).trans (List.Perm.swap x y t)
    · rw [if_neg hc]

/-- The sort permutes. -/
theorem sortDesc_perm : ∀ l, List.Perm (sortDesc l) l := by
  intro l
  induction l with
  | nil => simp [sortDesc]
  | cons x t ih => exact (insertDesc_perm x (sortDesc t)).trans (ih.cons x)

/-- Insertion preserves the descending pairwise invariant. -/
theorem insertDesc_pairwise (x : SummaryInfo) :
    ∀ l, l.Pairwise (fun a b => strLtB (keyStr a) (keyStr b) = false) →
      (insertDesc x l).Pairwise (fun a b => strLtB (keyStr a) (keyStr b) = false) := by
  intro l
  induction l with
  | nil => intro _; simp [insertDesc]
  | cons y t ih =>
    intro h
    rw [List.pairwise_cons] at h
    obtain ⟨hy, ht⟩ := h
    simp only [insertDesc]
    by_cases hc : strLtB (keyStr x) (keyStr y) = true
    · rw [if_pos hc]
      rw [List.pairwise_cons]
      refine ⟨?_, ih ht⟩
      intro z hz
      rcases List.mem_cons.mp ((insertDesc_perm x t).mem_iff.mp hz) with hz | hz
      · subst hz
        exact listLtB_asymm _ _ hc
      · exact hy z hz
    · rw [if_neg hc]
      have hc0 : strLtB (keyStr x) (keyStr y) = false := by simpa using hc
      rw [List.pairwise_cons]
      refine ⟨?_, List.pairwise_cons.mpr ⟨hy, ht⟩⟩
      intro z hz
      rcases List.mem_cons.mp hz with hz | hz
      · subst hz
        exact hc0
      · by_contra hcon
        have hxz : strLtB (keyStr x) (keyStr z) = true := by
          cases hxx : strLtB (keyStr x) (keyStr z)
          · exact absurd hxx hcon
          · rfl
        rcases listLtB_conn (keyStr x).data (keyStr y).data (keyStr z).data hxz with h' | h'
        · have hxy : strLtB (keyStr x) (keyStr y) = true := h'
          rw [hc0] at hxy
          cases hxy
        · have hyz : strLtB (keyStr y) (keyStr z) = true := h'
          rw [hy z hz] at hyz
          cases hyz

/-- The sort output is pairwise descending by key. -/
theorem sortDesc_pairwise :
    ∀ l, (sortDesc l).Pairwise (fun a b => strLtB (keyStr a) (keyStr b) = false) := by
  intro l
  induction l with
  | nil => simp [sortDesc]
  | cons x t ih => exact insertDesc_pairwise x (sortDesc t) ih

/-- The key comparison is irreflexive. -/
theorem listLtB_irrefl : ∀ a : List Char, listLtB a a = false := by
  intro a
  induction a with
  | nil => rfl
  | cons c t ih =>
    have hcc : charLtB c c = false := by simp [charLtB]
    simp [listLtB, hcc, ih]

/-- Stability of the insertion: restricted to any one key value, inserting the
earlier element keeps it in front — the equal-key subsequence of the output is
that of `x :: l`. -/
theorem insertDesc_filter (x : SummaryInfo) (k : String) :
    ∀ l, ∀ _ : l.Pairwise (fun a b => strLtB (keyStr a) (keyStr b) = false),
      (insertDesc x l).filter (fun s => keyStr s == k) =
        ((x :: l).filter (fun s => keyStr s == k)) := by
  intro l
  induction l with
  | nil => intro _; rfl
  | cons y t ih =>
    intro h
    rw [List.pairwise_cons] at h
    obtain ⟨hy, ht⟩ := h
    simp only [insertDesc]
    by_cases hc : strLtB (keyStr x) (keyStr y) = true
    · rw [if_pos hc]
      by_cases hxk : keyStr x = k
      · have hyk : ¬(keyStr y = k) := by
          intro hyk
          have hxy : keyStr x = keyStr y := by rw [hxk, hyk]
          rw [hxy] at hc
          have hir : strLtB (keyStr y) (keyStr y) = false :=
            listLtB_irrefl (keyStr y).data
          rw [hir] at hc
          cases hc
        simp [List.filter_cons, beq_iff_eq, hxk, hyk, ih ht]
      · simp [List.filter_cons, beq_iff_eq, hxk, ih ht]
    · rw [if_neg hc]

/-- Stability of the sort: restricted to any one key value, the sorted list
is the original list — elements with equal keys keep their input order, as in
CPython's stable `sorted`. -/
theorem sortDesc_filter (k : String) :
    ∀ l, (sortDesc l).filter (fun s => keyStr s == k) =
      l.filter (fun s => keyStr s == k) := by
  intro l
  induction l with
  | nil => rfl
  | cons x t ih =>
    simp only [sortDesc]
    rw [insertDesc_filter x k (sortDesc t) (sortDesc_pairwise t)]
    simp [List.filter_cons, ih]

/-- C2 counterexample: two one-record sessions, one with a string timestamp
and one without. Both summaries carry the `updated_at` key (the second with
value `None`), so the `""` default of `s.get("updated_at", "")` never applies,
and CPython's `sorted` raises `TypeError` on the `None`-vs-string comparison:
`get_sessions` raises instead of returning the claimed None-last ordering. -/
theorem get_sessions_none_updated_raises :
    get_sessions
      [⟨"a.jsonl", [⟨"\x7b\"type\": \"user\", \"timestamp\": \"2024-01-02\"\x7d\n",
          some (.obj [("type", .str "user"), ("timestamp", .str "2024-01-02")])⟩]⟩,
       ⟨"b.jsonl", [⟨"\x7b\"type\": \"user\"\x7d\n",
          some (.obj [("type", .str "user")])⟩]⟩] = .error () ∧
    (parse_session_summary "b"
        [⟨"\x7b\"type\": \"user\"\x7d\n", some (.obj [("type", .str "user")])⟩]).map
      (fun s => s.updated_at) = some none := by
  exact ⟨rfl, rfl⟩

/-- C2 (amended): every summary stores the `updated_at` key (possibly `None`),
so the `""` sort-key default is dead code; when every collected summary has a
string `updated_at`, the listing succeeds and returns a permutation of the
summaries that is pairwise descending by `updated_at` and stable — restricted
to any one key value it is the per-file enumeration order; a `None` value among
at least two sessions instead raises `TypeError` (see the counterexample). -/
theorem get_sessions_sorted_desc (files : List TFile)
    (h : ∀ s ∈ collectSummaries files, (sortKey s).isSome) :
    ∃ l, get_sessions files = .ok l ∧
      l.Pairwise (fun a b => strLtB (keyStr a) (keyStr b) = false) ∧
      List.Perm l (collectSummaries files) ∧
      ∀ k, l.filter (fun s => keyStr s == k) =
        (collectSummaries files).filter (fun s => keyStr s == k) := by
  unfold get_sessions pySortedDesc
  by_cases hlen : (collectSummaries files).length ≤ 1
  · refine ⟨collectSummaries files, by simp [hlen], ?_, List.Perm.refl _, fun k => rfl⟩
    match hm : collectSummaries files with
    | [] => simp
    | [x] => simp
    | x :: y :: t => rw [hm] at hlen; simp at hlen
  · have hany : ((collectSummaries files).any fun s => (sortKey s).isNone) = false := by
      rw [List.any_eq_false]
      intro s hs
      have := h s hs
      simp [Option.isNone] at this ⊢
      cases hx : sortKey s
      · rw [hx] at this; simp at this
      · simp
    refine ⟨sortDesc (collectSummaries files), by simp [hlen, hany], ?_, ?_, ?_⟩
    · exact sortDesc_pairwise _
    · exact sortDesc_perm _
    · exact fun k => sortDesc_filter k _

/-- Concrete run of `get_sessions_sorted_desc`: both sessions carry string
timestamps, and the listing succeeds sorted descending and stable. -/
theorem get_sessions_sorted_desc_witness :
    ∃ l,
      get_sessions
        [⟨"a.jsonl", [⟨"\x7b\"type\": \"user\", \"timestamp\": \"2024-01-02\"\x7d\n",
            some (.obj [("type", .str "user"), ("timestamp", .str "2024-01-02")])⟩]⟩,
         ⟨"c.jsonl", [⟨"\x7b\"type\": \"user\", \"timestamp\": \"2024-03-04\"\x7d\n",
            some (.obj [("type", .str "user"), ("timestamp", .str "2024-03-04")])⟩]⟩] =
        .ok l ∧
      l.Pairwise (fun a b => strLtB (keyStr a) (keyStr b) = false) ∧
      List.Perm l (collectSummaries
        [⟨"a.jsonl", [⟨"\x7b\"type\": \"user\", \"timestamp\": \"2024-01-02\"\x7d\n",
            some (.obj [("type", .str "user"), ("timestamp", .str "2024-01-02")])⟩]⟩,
         ⟨"c.jsonl", [⟨"\x7b\"type\": \"user\", \"timestamp\": \"2024-03-04\"\x7d\n",
            some (.obj [("type", .str "user"), ("timestamp", .str "2024-03-04")])⟩]⟩]) ∧
      ∀ k, l.filter (fun s => keyStr s == k) =
        (collectSummaries
          [⟨"a.jsonl", [⟨"\x7b\"type\": \"user\", \"timestamp\": \"2024-01-02\"\x7d\n",
              some (.obj [("type", .str "user"), ("timestamp", .str "2024-01-02")])⟩]⟩,
           ⟨"c.jsonl", [⟨"\x7b\"type\": \"user\", \"timestamp\": \"2024-03-04\"\x7d\n",
              some (.obj [("type", .str "user"), ("timestamp", .str "2024-03-04")])⟩]⟩]).filter
          (fun s => keyStr s == k) :=
  get_sessions_sorted_desc _ (by decide)

/-! ## The leading-title-block strip and dictionary-update facts -/

/-- Scanning over non-newline characters reaches the doubled newline. -/
theorem dropTitleRest_append (t r : List Char) (h : ∀ c ∈ t, c ≠ '\n') :
    dropTitleRest (t ++ '\n' :: '\n' :: r) = some r := by
  induction t with
  | nil => simp [dropTitleRest]
  | cons c t' ih =>
    have hc : c ≠ '\n' := h c (by simp)
    simp only [List.cons_append, dropTitleRest, hc, if_false]
    exact ih fun c' hc' => h c' (by simp [hc'])

/-- Stripping a freshly prepended `title + "\n\n"` block recovers the body,
for any nonempty newline-free title. -/
theorem stripTitleBlock_prepend (title s : String)
    (h1 : containsChar title '\n' = false) (h2 : title ≠ "") :
    stripTitleBlock (title ++ "\n\n" ++ s) = s := by
  have hchars : ∀ c ∈ title.data, c ≠ '\n' := by
    rw [containsChar, List.any_eq_false] at h1
    intro c hc
    simpa using h1 c hc
  obtain ⟨c, t, hct⟩ : ∃ c t, title.data = c :: t := by
    cases hd : title.data with
    | nil => exact absurd (by apply String.ext; simp [hd]) h2
    | cons c t => exact ⟨c, t, rfl⟩
  have hdata : (title ++ "\n\n" ++ s).data = c :: (t ++ '\n' :: '\n' :: s.data) := by
    simp [hct]
  have hcnl : c ≠ '\n' := hchars c (by simp [hct])
  have htnl : ∀ x ∈ t, x ≠ '\n' := fun x hx => hchars x (by simp [hct, hx])
  simp only [stripTitleBlock, hdata, hcnl, if_false, dropTitleRest_append t s.data htnl]

/-- The no-enqueue single-item rewrite is idempotent for nonempty
newline-free titles. -/
theorem renameText_idem (title : String)
    (h1 : containsChar title '\n' = false) (h2 : title ≠ "") (old : String) :
    renameText title (renameText title old) = renameText title old := by
  unfold renameText
  rw [stripTitleBlock_prepend title (stripTitleBlock old) h1 h2]

/-- A freshly assigned key is read back. -/
theorem lookupField_setField_self (fs : List (String × Json)) (k : String) (v : Json) :
    lookupField (setField fs k v) k = some v := by
  induction fs with
  | nil => simp [setField, lookupField]
  | cons p t ih =>
    obtain ⟨k', v'⟩ := p
    by_cases h : k' = k
    · simp [setField, lookupField, h]
    · simp [setField, lookupField, h, ih]

/-- Assigning one key leaves other keys' values unchanged. -/
theorem lookupField_setField_ne (fs : List (String × Json)) (k : String) (v : Json)
    (k2 : String) (h : k2 ≠ k) :
    lookupField (setField fs k v) k2 = lookupField fs k2 := by
  induction fs with
  | nil => simp [setField, lookupField, Ne.symm h]
  | cons p t ih =>
    obtain ⟨k', v'⟩ := p
    by_cases h' : k' = k
    · subst h'
      simp [setField, lookupField, Ne.symm h]
    · simp [setField, lookupField, h', ih]

/-- Re-assigning the value a key already holds is a no-op. -/
theorem setField_self (fs : List (String × Json)) (k : String) (v : Json)
    (h : lookupField fs k = some v) : setField fs k v = fs := by
  induction fs with
  | nil => simp [lookupField] at h
  | cons p t ih =>
    obtain ⟨k', v'⟩ := p
    by_cases h' : k' = k
    · subst h'
      simp [lookupField] at h
      simp [setField, h]
    · simp [lookupField, h'] at h
      simp [setField, h', ih h]

/-- Double assignment of the same value collapses. -/
theorem setField_idem (fs : List (String × Json)) (k : String) (v : Json) :
    setField (setField fs k v) k v = setField fs k v :=
  setField_self _ _ _ (lookupField_setField_self fs k v)

/-- Applying the no-enqueue content-item rewrite a second time with the same
nonempty, newline-free title reproduces its own output. -/
theorem mergeNoEnqItems_idem (title : String)
    (h1 : containsChar title '\n' = false) (h2 : title ≠ "") :
    ∀ items items', mergeNoEnqItems title items = .ok items' →
      mergeNoEnqItems title items' = .ok items' := by
  intro items
  induction items with
  | nil =>
    intro items' h
    simp only [mergeNoEnqItems] at h
    cases h
    rfl
  | cons item rest ih =>
    intro items' h
    cases item with
    | obj fs =>
      by_cases hty : jsonEqStr (lookupField fs "type") "text" = true
      · cases htx : lookupField fs "text" with
        | some w =>
          cases w with
          | str s =>
            simp only [mergeNoEnqItems, hty, if_true, htx] at h
            cases h
            have hty' : jsonEqStr (lookupField (setField fs "text"
                (Json.str (renameText title s))) "type") "text" = true := by
              rw [lookupField_setField_ne _ _ _ _ (by decide)]
              exact hty
            have htx' : lookupField (setField fs "text" (Json.str (renameText title s)))
                "text" = some (Json.str (renameText title s)) :=
              lookupField_setField_self _ _ _
            simp only [Json.setKey, mergeNoEnqItems, hty', if_true, htx']
            rw [renameText_idem title h1 h2, setField_idem]
          | null => simp [mergeNoEnqItems, hty, htx] at h
          | bool b => simp [mergeNoEnqItems, hty, htx] at h
          | num n => simp [mergeNoEnqItems, hty, htx] at h
          | arr xs => simp [mergeNoEnqItems, hty, htx] at h
          | obj fs2 => simp [mergeNoEnqItems, hty, htx] at h
        | none =>
          simp only [mergeNoEnqItems, hty, if_true, htx] at h
          cases h
          have hty' : jsonEqStr (lookupField (setField fs "text"
              (Json.str (renameText title ""))) "type") "text" = true := by
            rw [lookupField_setField_ne _ _ _ _ (by decide)]
            exact hty
          have htx' : lookupField (setField fs "text" (Json.str (renameText title "")))
              "text" = some (Json.str (renameText title "")) :=
            lookupField_setField_self _ _ _
          simp only [Json.setKey, mergeNoEnqItems, hty', if_true, htx']
          rw [renameText_idem title h1 h2, setField_idem]
      · have hty0 : jsonEqStr (lookupField fs "type") "text" = false := by
          simpa using hty
        simp only [mergeNoEnqItems, hty0, Bool.false_eq_true, if_false] at h
        cases hr : mergeNoEnqItems title rest with
        | error e => rw [hr] at h; cases h
        | ok r =>
          rw [hr] at h
          cases h
          simp only [mergeNoEnqItems, hty0, Bool.false_eq_true, if_false, ih r hr]
    | null =>
      simp only [mergeNoEnqItems] at h
      cases hr : mergeNoEnqItems title rest with
      | error e => rw [hr] at h; cases h
      | ok r =>
        rw [hr] at h
        cases h
        simp only [mergeNoEnqItems, ih r hr]
    | bool b =>
      simp only [mergeNoEnqItems] at h
      cases hr : mergeNoEnqItems title rest with
      | error e => rw [hr] at h; cases h
      | ok r =>
        rw [hr] at h
        cases h
        simp only [mergeNoEnqItems, ih r hr]
    | num n =>
      simp only [mergeNoEnqItems] at h
      cases hr : mergeNoEnqItems title rest with
      | error e => rw [hr] at h; cases h
      | ok r =>
        rw [hr] at h
        cases h
        simp only [mergeNoEnqItems, ih r hr]
    | str sv =>
      simp only [mergeNoEnqItems] at h
      cases hr : mergeNoEnqItems title rest with
      | error e => rw [hr] at h; cases h
      | ok r =>
        rw [hr] at h
        cases h
        simp only [mergeNoEnqItems, ih r hr]
    | arr xs =>
      simp only [mergeNoEnqItems] at h
      cases hr : mergeNoEnqItems title rest with
      | error e => rw [hr] at h; cases h
      | ok r =>
        rw [hr] at h
        cases h
        simp only [mergeNoEnqItems, ih r hr]

/-- C6 counterexample: the empty title is newline-free, yet renaming twice
with it doubles the blank-line block: the regex `^[^\n]+\n\n` needs at least
one non-newline character, so it cannot strip the previously added
`"" + "\n\n"` block. -/
theorem rename_empty_title_not_idempotent :
    renameText "" (renameText "" "hi") ≠ renameText "" "hi" := by decide

/-- C6 (amended): for a nonempty newline-free title, the no-enqueue rewrite is
idempotent — the leading-block strip removes exactly the previously added
`title + "\n\n"` prefix, so the second rename reproduces the first's text and
the whole content-item rewrite reproduces its own output. -/
theorem rename_title_idempotent (title : String)
    (h1 : containsChar title '\n' = false) (h2 : title ≠ "") :
    (∀ old, renameText title (renameText title old) = renameText title old) ∧
    (∀ items items', mergeNoEnqItems title items = .ok items' →
      mergeNoEnqItems title items' = .ok items') :=
  ⟨renameText_idem title h1 h2, mergeNoEnqItems_idem title h1 h2⟩

/-- Concrete run of `rename_title_idempotent` with title `"T"`. -/
theorem rename_title_idempotent_witness :
    renameText "T" (renameText "T" "body text") = renameText "T" "body text" ∧
    mergeNoEnqItems "T"
        [Json.obj [("type", .str "text"), ("text", .str "hello")]] =
      .ok [Json.obj [("type", .str "text"), ("text", .str "T\n\nhello")]] ∧
    mergeNoEnqItems "T"
        [Json.obj [("type", .str "text"), ("text", .str "T\n\nhello")]] =
      .ok [Json.obj [("type", .str "text"), ("text", .str "T\n\nhello")]] :=
  ⟨(rename_title_idempotent "T" (by decide) (by decide)).1 "body text",
   rfl,
   (rename_title_idempotent "T" (by decide) (by decide)).2
     [Json.obj [("type", .str "text"), ("text", .str "hello")]]
     [Json.obj [("type", .str "text"), ("text", .str "T\n\nhello")]] rfl⟩

/-! ## The rename scan refines the declarative searches -/

/-- A successful string comparison pins down the optional JSON value. -/
theorem jsonEqStr_some (o : Option Json) (q : String) (h : jsonEqStr o q = true) :
    o = some (Json.str q) := by
  cases o with
  | none => simp [jsonEqStr] at h
  | some w =>
    cases w with
    | str sv => simp [jsonEqStr] at h; rw [h]
    | null => simp [jsonEqStr] at h
    | bool b => simp [jsonEqStr] at h
    | num n => simp [jsonEqStr] at h
    | arr xs => simp [jsonEqStr] at h
    | obj fs2 => simp [jsonEqStr] at h

/-- The first pass of `rename_session`, when it completes without an
exception, computes exactly the declarative first-user index and first
qualifying enqueue text (each relative to what was already tracked). -/
theorem scanAux_ok (ls : List Line) :
    ∀ (i : Nat) (fu : Option Nat) (om : Option String) rfu rom,
      scanAux ls i fu om = .ok (rfu, rom) →
      rfu = (match fu with
             | some j => some j
             | none => (firstUser ls).map (· + i)) ∧
      rom = (match om with
             | some m => some m
             | none => firstEnqueueText ls) := by
  induction ls with
  | nil =>
    intro i fu om rfu rom h
    simp only [scanAux] at h
    cases h
    constructor
    · cases fu <;> simp [firstUser]
    · cases om <;> simp [firstEnqueueText]
  | cons l ls ih =>
    intro i fu om rfu rom h
    simp only [scanAux] at h
    by_cases hb : (pyStrip l.raw).data.isEmpty
    · rw [if_pos hb] at h
      obtain ⟨h1, h2⟩ := ih (i + 1) fu om rfu rom h
      have hu : isUserLineB l = false := by simp [isUserLineB, hb]
      have hcp : capturePure l = none := by simp [capturePure, hb]
      refine ⟨?_, ?_⟩
      · cases fu with
        | some j => simpa using h1
        | none =>
          rw [h1]
          simp only [firstUser, hu, Bool.false_eq_true, if_false]
          cases hf : firstUser ls with
          | none => simp
          | some x => simp; omega
      · cases om with
        | some m => simpa using h2
        | none =>
          rw [h2]
          simp [firstEnqueueText, hcp]
    · rw [if_neg hb] at h
      cases hd : l.decoded with
      | none =>
        rw [hd] at h
        obtain ⟨h1, h2⟩ := ih (i + 1) fu om rfu rom h
        have hu : isUserLineB l = false := by simp [isUserLineB, hd]
        have hcp : capturePure l = none := by simp [capturePure, hb, hd]
        refine ⟨?_, ?_⟩
        · cases fu with
          | some j => simpa using h1
          | none =>
            rw [h1]
            simp only [firstUser, hu, Bool.false_eq_true, if_false]
            cases hf : firstUser ls with
            | none => simp
            | some x => simp; omega
        · cases om with
          | some m => simpa using h2
          | none =>
            rw [h2]
            simp [firstEnqueueText, hcp]
      | some e =>
        rw [hd] at h
        cases e with
        | null => simp [pyGetOpt] at h
        | bool b => simp [pyGetOpt] at h
        | num n => simp [pyGetOpt] at h
        | str s => simp [pyGetOpt] at h
        | arr xs => simp [pyGetOpt] at h
        | obj fs =>
          simp only [pyGetOpt] at h
          have hkey : (Json.obj fs).getKey? "type" = lookupField fs "type" := rfl
          by_cases hq : (jsonEqStr (lookupField fs "type") "queue-operation" &&
              om.isNone) = true
          · rw [if_pos hq] at h
            cases hcap : captureEnqueue (Json.obj fs) with
            | error e' => rw [hcap] at h; cases h
            | ok om' =>
              rw [hcap] at h
              obtain ⟨h1, h2⟩ := ih (i + 1) _ om' rfu rom h
              have hqom : om = none := by
                cases om with
                | none => rfl
                | some m => simp at hq
              subst hqom
              have hqt : jsonEqStr (lookupField fs "type") "queue-operation" = true := by
                simpa using hq
              have hut : jsonEqStr (lookupField fs "type") "user" = false := by
                rw [jsonEqStr_some _ _ hqt]
                decide
              have hu : isUserLineB l = false := by
                simp [isUserLineB, hd, hkey, hut]
              have hcp : capturePure l = om' := by
                simp [capturePure, hb, hd, hkey, hqt, hcap]
              refine ⟨?_, ?_⟩
              · have hfu' : (if jsonEqStr (lookupField fs "type") "user" && fu.isNone
                    then some i else fu) = fu := by
                  simp [hut]
                rw [hfu'] at h1
                cases fu with
                | some j => simpa using h1
                | none =>
                  rw [h1]
                  simp only [firstUser, hu, Bool.false_eq_true, if_false]
                  cases hf : firstUser ls with
                  | none => simp
                  | some x => simp; omega
              · rw [h2]
                cases om' with
                | some m => simp [firstEnqueueText, hcp]
                | none => simp [firstEnqueueText, hcp]
          · rw [if_neg hq] at h
            obtain ⟨h1, h2⟩ := ih (i + 1) _ om rfu rom h
            have hcp_or : om = none → capturePure l = none := by
              intro hom
              subst hom
              have hqt : jsonEqStr (lookupField fs "type") "queue-operation" = false := by
                simpa using hq
              simp [capturePure, hb, hd, hkey, hqt]
            refine ⟨?_, ?_⟩
            · by_cases hut : jsonEqStr (lookupField fs "type") "user" = true
              · cases fu with
                | some j =>
                  have : (if jsonEqStr (lookupField fs "type") "user" &&
                      (some j : Option Nat).isNone then some i else some j) = some j := by
                    simp
                  rw [this] at h1
                  simpa using h1
                | none =>
                  have : (if jsonEqStr (lookupField fs "type") "user" &&
                      (none : Option Nat).isNone then some i else none) = some i := by
                    simp [hut]
                  rw [this] at h1
                  have hu : isUserLineB l = true := by
                    simp [isUserLineB, hb, hd, hkey, hut]
                  rw [h1]
                  simp [firstUser, hu]
              · have hut0 : jsonEqStr (lookupField fs "type") "user" = false := by
                  simpa using hut
                have hfu' : (if jsonEqStr (lookupField fs "type") "user" && fu.isNone
                    then some i else fu) = fu := by
                  simp [hut0]
                rw [hfu'] at h1
                have hu : isUserLineB l = false := by
                  simp [isUserLineB, hd, hkey, hut0]
                cases fu with
                | some j => simpa using h1
                | none =>
                  rw [h1]
                  simp only [firstUser, hu, Bool.false_eq_true, if_false]
                  cases hf : firstUser ls with
                  | none => simp
                  | some x => simp; omega
            · cases om with
              | some m => simpa using h2
              | none =>
                rw [h2]
                simp [firstEnqueueText, hcp_or rfl]

/-- The declarative first-user index stays within the file. -/
theorem firstUser_lt (ls : List Line) : ∀ i, firstUser ls = some i → i < ls.length := by
  induction ls with
  | nil => intro i h; simp [firstUser] at h
  | cons l t ih =>
    intro i h
    by_cases hu : isUserLineB l = true
    · simp [firstUser, hu] at h
      simp only [List.length_cons]
      omega
    · simp only [firstUser, hu, Bool.false_eq_true, if_false] at h
      cases hf : firstUser t with
      | none => rw [hf] at h; simp at h
      | some x =>
        rw [hf] at h
        simp at h
        have hx := ih x hf
        simp only [List.length_cons]
        omega

/-- C1: a successful `rename_session` preserves the line count, and every
line other than the one at the first-user-record index — including a trailing
unterminated chunk, which is just the last element of the line list — is
byte-identical before and after; only the first-user line is substituted. -/
theorem rename_preserves_other_lines (lines : List Line) (t : String) (out : List String)
    (h : rename_session lines t = some out) :
    out.length = lines.length ∧
    ∃ i, firstUser lines = some i ∧ i < lines.length ∧
      ∀ j, j ≠ i → out.getD j "" = (lines.getD j ⟨"", none⟩).raw := by
  unfold rename_session at h
  cases hscan : scanLines lines with
  | error e => simp only [hscan] at h; cases h
  | ok pr =>
    obtain ⟨fu, om⟩ := pr
    simp only [hscan] at h
    cases fu with
    | none => simp at h
    | some i =>
      cases hdec : (lines.getD i ⟨"", none⟩).decoded with
      | none => simp only [hdec] at h; cases h
      | some e =>
        simp only [hdec] at h
        cases hrw : rewriteEntry e t om with
        | error e2 => simp only [hrw] at h; cases h
        | ok e' =>
          simp only [hrw, Option.some.injEq] at h
          have hfu : firstUser lines = some i := by
            have hs := (scanAux_ok lines 0 none none (some i) om hscan).1
            cases hf : firstUser lines with
            | none => rw [hf] at hs; simp at hs
            | some x =>
              rw [hf] at hs
              simp at hs
              rw [hs]
          refine ⟨?_, i, hfu, firstUser_lt _ _ hfu, ?_⟩
          · rw [← h]
            simp
          · intro j hj
            rw [← h]
            simp only [List.getD_eq_getElem?_getD]
            rw [List.getElem?_set_ne (Ne.symm hj), List.getElem?_map]
            cases hje : lines[j]? with
            | none => simp
            | some l0 => simp

/-- Concrete run of `rename_preserves_other_lines` on a three-line file: a
summary record, the user record, and a trailing undecodable chunk without a
newline terminator; the first and third lines come back byte-identical. -/
theorem rename_preserves_other_lines_witness :
    ([ "\x7b\"type\": \"summary\", \"summary\": \"hi\"\x7d\n",
       "\x7b\"type\": \"user\", \"message\": \x7b\"content\": [\x7b\"type\": \"text\", \"text\": \"New\\n\\nhello\"\x7d]\x7d\x7d\n",
       "trailing" ] : List String).length =
      ([⟨"\x7b\"type\": \"summary\", \"summary\": \"hi\"\x7d\n",
          some (.obj [("type", .str "summary"), ("summary", .str "hi")])⟩,
        ⟨"\x7b\"type\": \"user\", \"message\": \x7b\"content\": [\x7b\"type\": \"text\", \"text\": \"hello\"\x7d]\x7d\x7d\n",
          some (.obj [("type", .str "user"),
            ("message", .obj [("content",
              .arr [.obj [("type", .str "text"), ("text", .str "hello")]])])])⟩,
        ⟨"trailing", none⟩] : List Line).length ∧
    ∃ i, firstUser
        [⟨"\x7b\"type\": \"summary\", \"summary\": \"hi\"\x7d\n",
          some (.obj [("type", .str "summary"), ("summary", .str "hi")])⟩,
         ⟨"\x7b\"type\": \"user\", \"message\": \x7b\"content\": [\x7b\"type\": \"text\", \"text\": \"hello\"\x7d]\x7d\x7d\n",
          some (.obj [("type", .str "user"),
            ("message", .obj [("content",
              .arr [.obj [("type", .str "text"), ("text", .str "hello")]])])])⟩,
         ⟨"trailing", none⟩] = some i ∧
      i < 3 ∧
      ∀ j, j ≠ i →
        ([ "\x7b\"type\": \"summary\", \"summary\": \"hi\"\x7d\n",
           "\x7b\"type\": \"user\", \"message\": \x7b\"content\": [\x7b\"type\": \"text\", \"text\": \"New\\n\\nhello\"\x7d]\x7d\x7d\n",
           "trailing" ] : List String).getD j "" =
          (([⟨"\x7b\"type\": \"summary\", \"summary\": \"hi\"\x7d\n",
              some (.obj [("type", .str "summary"), ("summary", .str "hi")])⟩,
             ⟨"\x7b\"type\": \"user\", \"message\": \x7b\"content\": [\x7b\"type\": \"text\", \"text\": \"hello\"\x7d]\x7d\x7d\n",
              some (.obj [("type", .str "user"),
                ("message", .obj [("content",
                  .arr [.obj [("type", .str "text"), ("text", .str "hello")]])])])⟩,
             ⟨"trailing", none⟩] : List Line).getD j ⟨"", none⟩).raw :=
  rename_preserves_other_lines
    [⟨"\x7b\"type\": \"summary\", \"summary\": \"hi\"\x7d\n",
      some (.obj [("type", .str "summary"), ("summary", .str "hi")])⟩,
     ⟨"\x7b\"type\": \"user\", \"message\": \x7b\"content\": [\x7b\"type\": \"text\", \"text\": \"hello\"\x7d]\x7d\x7d\n",
      some (.obj [("type", .str "user"),
        ("message", .obj [("content",
          .arr [.obj [("type", .str "text"), ("text", .str "hello")]])])])⟩,
     ⟨"trailing", none⟩] "New"
    [ "\x7b\"type\": \"summary\", \"summary\": \"hi\"\x7d\n",
      "\x7b\"type\": \"user\", \"message\": \x7b\"content\": [\x7b\"type\": \"text\", \"text\": \"New\\n\\nhello\"\x7d]\x7d\x7d\n",
      "trailing" ] rfl

/-! ## Monadic reduction helpers and the enqueue-branch insertion position -/

/-- Bind on a successful `Except` computation. -/
theorem ebind_ok {α β : Type} (a : α) (f : α → Except Unit β) :
    (Except.ok a >>= f : Except Unit β) = f a := rfl

/-- Bind on a failed `Except` computation. -/
theorem ebind_err {α β : Type} (e : Unit) (f : α → Except Unit β) :
    (Except.error e >>= f : Except Unit β) = Except.error e := rfl

/-- Pure is success. -/
theorem epure_ok {α : Type} (a : α) : (pure a : Except Unit α) = Except.ok a := rfl

/-- The insertion-position loop computes one past the last `<ide_`-prefixed
text item (the accumulator when there is none). -/
theorem insertPosAux_eq : ∀ (items : List Json) (i acc p : Nat),
    insertPosAux items i acc = .ok p →
    p = (match lastIdeIdx items with
         | some j => i + j + 1
         | none => acc) := by
  intro items
  induction items with
  | nil =>
    intro i acc p h
    simp only [insertPosAux] at h
    cases h
    simp [lastIdeIdx]
  | cons item rest ih =>
    intro i acc p h
    cases item with
    | obj fs =>
      by_cases hty : jsonEqStr (lookupField fs "type") "text" = true
      · cases htx : lookupField fs "text" with
        | some w =>
          cases w with
          | str s =>
            by_cases hide : pyStartsWith (pyStrip s) "<ide_" = true
            · simp only [insertPosAux, hty, if_true, htx, hide] at h
              have := ih (i + 1) (i + 1) p h
              have hideB : isIdeTextB (Json.obj fs) = true := by
                simp [isIdeTextB, hty, htx, hide]
              simp only [lastIdeIdx, hideB]
              cases hl : lastIdeIdx rest with
              | some j => simp [hl] at this ⊢; rw [this]; ring
              | none => simp [hl] at this ⊢; omega
            · have hide0 : pyStartsWith (pyStrip s) "<ide_" = false := by simpa using hide
              simp only [insertPosAux, hty, if_true, htx, hide0, Bool.false_eq_true,
                if_false] at h
              have := ih (i + 1) acc p h
              have hideB : isIdeTextB (Json.obj fs) = false := by
                simp [isIdeTextB, hty, htx, hide0]
              simp only [lastIdeIdx, hideB, Bool.false_eq_true, if_false]
              cases hl : lastIdeIdx rest with
              | some j => simp [hl] at this ⊢; rw [this]; ring
              | none => simp [hl] at this ⊢; omega
          | null => simp [insertPosAux, hty, htx] at h
          | bool b => simp [insertPosAux, hty, htx] at h
          | num n => simp [insertPosAux, hty, htx] at h
          | arr xs => simp [insertPosAux, hty, htx] at h
          | obj fs2 => simp [insertPosAux, hty, htx] at h
        | none =>
          simp only [insertPosAux, hty, if_true, htx] at h
          have := ih (i + 1) acc p h
          have hideB : isIdeTextB (Json.obj fs) = false := by
            simp [isIdeTextB, htx]
          simp only [lastIdeIdx, hideB, Bool.false_eq_true, if_false]
          cases hl : lastIdeIdx rest with
          | some j => simp [hl] at this ⊢; rw [this]; ring
          | none => simp [hl] at this ⊢; omega
      · have hty0 : jsonEqStr (lookupField fs "type") "text" = false := by simpa using hty
        simp only [insertPosAux, hty0, Bool.false_eq_true, if_false] at h
        have := ih (i + 1) acc p h
        have hideB : isIdeTextB (Json.obj fs) = false := by
          simp [isIdeTextB, hty0]
        simp only [lastIdeIdx, hideB, Bool.false_eq_true, if_false]
        cases hl : lastIdeIdx rest with
        | some j => simp [hl] at this ⊢; rw [this]; ring
        | none => simp [hl] at this ⊢; omega
    | null =>
      simp only [insertPosAux] at h
      have := ih (i + 1) acc p h
      simp only [lastIdeIdx, show isIdeTextB Json.null = false from rfl,
        Bool.false_eq_true, if_false]
      cases hl : lastIdeIdx rest with
      | some j => simp [hl] at this ⊢; rw [this]; ring
      | none => simp [hl] at this ⊢; omega
    | bool b =>
      simp only [insertPosAux] at h
      have := ih (i + 1) acc p h
      simp only [lastIdeIdx, show ∀ b, isIdeTextB (Json.bool b) = false from fun _ => rfl,
        Bool.false_eq_true, if_false]
      cases hl : lastIdeIdx rest with
      | some j => simp [hl] at this ⊢; rw [this]; ring
      | none => simp [hl] at this ⊢; omega
    | num n =>
      simp only [insertPosAux] at h
      have := ih (i + 1) acc p h
      simp only [lastIdeIdx, show ∀ n, isIdeTextB (Json.num n) = false from fun _ => rfl,
        Bool.false_eq_true, if_false]
      cases hl : lastIdeIdx rest with
      | some j => simp [hl] at this ⊢; rw [this]; ring
      | none => simp [hl] at this ⊢; omega
    | str sv =>
      simp only [insertPosAux] at h
      have := ih (i + 1) acc p h
      simp only [lastIdeIdx, show ∀ s, isIdeTextB (Json.str s) = false from fun _ => rfl,
        Bool.false_eq_true, if_false]
      cases hl : lastIdeIdx rest with
      | some j => simp [hl] at this ⊢; rw [this]; ring
      | none => simp [hl] at this ⊢; omega
    | arr xs =>
      simp only [insertPosAux] at h
      have := ih (i + 1) acc p h
      simp only [lastIdeIdx, show ∀ xs, isIdeTextB (Json.arr xs) = false from fun _ => rfl,
        Bool.false_eq_true, if_false]
      cases hl : lastIdeIdx rest with
      | some j => simp [hl] at this ⊢; rw [this]; ring
      | none => simp [hl] at this ⊢; omega

/-- When no `<ide_`-prefixed text item exists, none is found at any index. -/
theorem lastIdeIdx_none : ∀ (items : List Json), lastIdeIdx items = none →
    ∀ k, k < items.length → isIdeTextB (items.getD k .null) = false := by
  intro items
  induction items with
  | nil => intro _ k hk; simp at hk
  | cons item rest ih =>
    intro h k hk
    simp only [lastIdeIdx] at h
    cases hl : lastIdeIdx rest with
    | some j => rw [hl] at h; cases h
    | none =>
      rw [hl] at h
      by_cases hide : isIdeTextB item = true
      · rw [if_pos hide] at h; cases h
      · cases k with
        | zero => simpa [List.getD_cons_zero] using hide
        | succ k' =>
          simp only [List.getD_cons_succ]
          exact ih hl k' (by simp at hk; omega)

/-- The last `<ide_`-prefixed index is in range, is `<ide_`-prefixed, and is
followed by no further `<ide_`-prefixed item. -/
theorem lastIdeIdx_some : ∀ (items : List Json) (j : Nat), lastIdeIdx items = some j →
    j < items.length ∧ isIdeTextB (items.getD j .null) = true ∧
      ∀ k, j < k → k < items.length → isIdeTextB (items.getD k .null) = false := by
  intro items
  induction items with
  | nil => intro j h; simp [lastIdeIdx] at h
  | cons item rest ih =>
    intro j h
    simp only [lastIdeIdx] at h
    cases hl : lastIdeIdx rest with
    | some j' =>
      rw [hl] at h
      cases h
      obtain ⟨hlt, hide, hafter⟩ := ih j' hl
      refine ⟨by simp; omega, by simpa [List.getD_cons_succ] using hide, ?_⟩
      intro k hk1 hk2
      cases k with
      | zero => omega
      | succ k' =>
        simp only [List.getD_cons_succ]
        exact hafter k' (by omega) (by simp at hk2; omega)
    | none =>
      rw [hl] at h
      by_cases hide : isIdeTextB item = true
      · rw [if_pos hide] at h
        cases h
        refine ⟨by simp, by simpa [List.getD_cons_zero] using hide, ?_⟩
        intro k hk1 hk2
        cases k with
        | zero => omega
        | succ k' =>
          simp only [List.getD_cons_succ]
          exact lastIdeIdx_none rest hl k' (by simp at hk2; omega)
      · rw [if_neg hide] at h; cases h

/-- C4: with a captured enqueue message (taken once, from the first qualifying
queue-operation record — witnessed by the `firstEnqueueText` conjunct) and no
content text item outside the `<ide_` marker, `rename_session` inserts the new
text item `{type: text, text: title + "\n\n" + message}` at the position one
past the last `<ide_`-prefixed text item, so injected context stays first. -/
theorem rename_enqueue_inserts_after_ide (lines : List Line) (t : String)
    (i : Nat) (m : String) (e : Json) (mfs : List (String × Json)) (cs : List Json) (p : Nat)
    (hscan : scanLines lines = .ok (some i, some m))
    (hdec : (lines.getD i ⟨"", none⟩).decoded = some e)
    (hmsg : e.getKey? "message" = some (.obj mfs))
    (hcontent : lookupField mfs "content" = some (.arr cs))
    (hnoreal : findRealTextIdx cs 0 = .ok none)
    (hpos : insertPosCalc cs = .ok p) :
    rename_session lines t =
      some ((lines.map Line.raw).set i
        (Json.dumps (e.setKey "message" ((Json.obj mfs).setKey "content"
          (.arr (cs.insertIdx p (textItem (t ++ "\n\n" ++ m)))))) ++ "\n")) ∧
    firstEnqueueText lines = some m ∧
    (p = 0 ∨ (0 < p ∧ isIdeTextB (cs.getD (p - 1) .null) = true)) ∧
    (∀ k, p ≤ k → k < cs.length → isIdeTextB (cs.getD k .null) = false) := by
  obtain ⟨efs, rfl, hlook⟩ : ∃ efs, e = Json.obj efs ∧
      lookupField efs "message" = some (.obj mfs) := by
    cases e with
    | obj efs => exact ⟨efs, rfl, hmsg⟩
    | null => simp [Json.getKey?] at hmsg
    | bool b => simp [Json.getKey?] at hmsg
    | num n => simp [Json.getKey?] at hmsg
    | str s => simp [Json.getKey?] at hmsg
    | arr xs => simp [Json.getKey?] at hmsg
  have hrw : rewriteEntry (Json.obj efs) t (some m) =
      .ok ((Json.obj efs).setKey "message" ((Json.obj mfs).setKey "content"
        (.arr (cs.insertIdx p (textItem (t ++ "\n\n" ++ m)))))) := by
    simp only [rewriteEntry, mergeEnq, pyGetD, pyIter, Json.getKey?, hlook, hcontent,
      hnoreal, hpos, Option.getD_some, ebind_ok, epure_ok]
  have hp := insertPosAux_eq cs 0 0 p hpos
  refine ⟨?_, ?_, ?_, ?_⟩
  · unfold rename_session
    simp only [hscan, hdec, hrw]
  · have hs := (scanAux_ok lines 0 none none (some i) (some m) hscan).2
    exact hs.symm
  · cases hl : lastIdeIdx cs with
    | none =>
      have hp0 : p = 0 := by have h' := hp; rw [hl] at h'; simpa using h'
      left; exact hp0
    | some j =>
      have hpj : p = j + 1 := by have h' := hp; rw [hl] at h'; simpa using h'
      obtain ⟨hjlt, hide, _⟩ := lastIdeIdx_some cs j hl
      right
      refine ⟨by omega, ?_⟩
      have hpre : p - 1 = j := by omega
      rw [hpre]
      exact hide
  · intro k hk1 hk2
    cases hl : lastIdeIdx cs with
    | none => exact lastIdeIdx_none cs hl k hk2
    | some j =>
      have hpj : p = j + 1 := by have h' := hp; rw [hl] at h'; simpa using h'
      obtain ⟨_, _, hafter⟩ := lastIdeIdx_some cs j hl
      exact hafter k (by omega) hk2

/-- Concrete run of `rename_enqueue_inserts_after_ide`: a user record whose
only text item is `<ide_`-prefixed, plus an enqueue record with real text; the
new item lands at position 1, directly after the IDE-tag item. -/
theorem rename_enqueue_inserts_after_ide_witness :
    rename_session
      [⟨"\x7b\"type\": \"queue-operation\", \"operation\": \"enqueue\", \"content\": [\x7b\"type\": \"text\", \"text\": \"real question\"\x7d]\x7d\n",
        some (.obj [("type", .str "queue-operation"), ("operation", .str "enqueue"),
          ("content", .arr [.obj [("type", .str "text"), ("text", .str "real question")]])])⟩,
       ⟨"\x7b\"type\": \"user\", \"message\": \x7b\"content\": [\x7b\"type\": \"text\", \"text\": \"<ide_ctx>stuff</ide_ctx>\"\x7d]\x7d\x7d\n",
        some (.obj [("type", .str "user"),
          ("message", .obj [("content",
            .arr [.obj [("type", .str "text"), ("text", .str "<ide_ctx>stuff</ide_ctx>")]])])])⟩]
      "T" =
      some ((([⟨"\x7b\"type\": \"queue-operation\", \"operation\": \"enqueue\", \"content\": [\x7b\"type\": \"text\", \"text\": \"real question\"\x7d]\x7d\n",
        some (.obj [("type", .str "queue-operation"), ("operation", .str "enqueue"),
          ("content", .arr [.obj [("type", .str "text"), ("text", .str "real question")]])])⟩,
       ⟨"\x7b\"type\": \"user\", \"message\": \x7b\"content\": [\x7b\"type\": \"text\", \"text\": \"<ide_ctx>stuff</ide_ctx>\"\x7d]\x7d\x7d\n",
        some (.obj [("type", .str "user"),
          ("message", .obj [("content",
            .arr [.obj [("type", .str "text"), ("text", .str "<ide_ctx>stuff</ide_ctx>")]])])])⟩] : List Line).map Line.raw).set 1
        (Json.dumps ((Json.obj [("type", .str "user"),
          ("message", .obj [("content",
            .arr [.obj [("type", .str "text"), ("text", .str "<ide_ctx>stuff</ide_ctx>")]])])]).setKey "message"
          ((Json.obj [("content",
            .arr [.obj [("type", .str "text"), ("text", .str "<ide_ctx>stuff</ide_ctx>")]])]).setKey "content"
            (.arr ([.obj [("type", .str "text"), ("text", .str "<ide_ctx>stuff</ide_ctx>")]].insertIdx 1
              (textItem ("T" ++ "\n\n" ++ "real question")))))) ++ "\n")) ∧
    firstEnqueueText
      [⟨"\x7b\"type\": \"queue-operation\", \"operation\": \"enqueue\", \"content\": [\x7b\"type\": \"text\", \"text\": \"real question\"\x7d]\x7d\n",
        some (.obj [("type", .str "queue-operation"), ("operation", .str "enqueue"),
          ("content", .arr [.obj [("type", .str "text"), ("text", .str "real question")]])])⟩,
       ⟨"\x7b\"type\": \"user\", \"message\": \x7b\"content\": [\x7b\"type\": \"text\", \"text\": \"<ide_ctx>stuff</ide_ctx>\"\x7d]\x7d\x7d\n",
        some (.obj [("type", .str "user"),
          ("message", .obj [("content",
            .arr [.obj [("type", .str "text"), ("text", .str "<ide_ctx>stuff</ide_ctx>")]])])])⟩] =
      some "real question" ∧
    (1 = 0 ∨ (0 < 1 ∧ isIdeTextB
      (([.obj [("type", .str "text"), ("text", .str "<ide_ctx>stuff</ide_ctx>")]] : List Json).getD
        (1 - 1) .null) = true)) ∧
    (∀ k, 1 ≤ k →
      k < ([.obj [("type", .str "text"), ("text", .str "<ide_ctx>stuff</ide_ctx>")]] : List Json).length →
      isIdeTextB (([.obj [("type", .str "text"), ("text", .str "<ide_ctx>stuff</ide_ctx>")]] : List Json).getD
        k .null) = false) :=
  rename_enqueue_inserts_after_ide _ "T" 1 "real question"
    (.obj [("type", .str "user"),
      ("message", .obj [("content",
        .arr [.obj [("type", .str "text"), ("text", .str "<ide_ctx>stuff</ide_ctx>")]])])])
    [("content", .arr [.obj [("type", .str "text"), ("text", .str "<ide_ctx>stuff</ide_ctx>")]])]
    [.obj [("type", .str "text"), ("text", .str "<ide_ctx>stuff</ide_ctx>")]] 1
    rfl rfl rfl rfl rfl rfl

/-! ## The no-enqueue branch of the content merge (C5) -/

/-- C5 counterexample: a user record with no `message` key has an (implicitly
empty) content with no text item, yet `rename_session` reports failure, not
success: `entry['message']['content'] = ...` raises `KeyError`, caught by the
outer handler as `False`. -/
theorem rename_missing_message_fails :
    rename_session [⟨"\x7b\"type\": \"user\"\x7d\n",
      some (.obj [("type", .str "user")])⟩] "T" = none := rfl

/-- A content list with no text item passes through the no-enqueue loop
unchanged. -/
theorem mergeNoEnqItems_no_text (title : String) :
    ∀ items, (∀ item ∈ items, isTextItemB item = false) →
      mergeNoEnqItems title items = .ok items := by
  intro items
  induction items with
  | nil => intro _; rfl
  | cons item rest ih =>
    intro h
    have hrest := ih fun x hx => h x (by simp [hx])
    cases item with
    | obj fs =>
      have hty : jsonEqStr (lookupField fs "type") "text" = false := by
        simpa [isTextItemB] using h (Json.obj fs) (by simp)
      simp [mergeNoEnqItems, hty, hrest]
    | null => simp [mergeNoEnqItems, hrest]
    | bool b => simp [mergeNoEnqItems, hrest]
    | num n => simp [mergeNoEnqItems, hrest]
    | str sv => simp [mergeNoEnqItems, hrest]
    | arr xs => simp [mergeNoEnqItems, hrest]

/-- Only the first text item of the list is rewritten. -/
theorem mergeNoEnqItems_first_text (title : String) :
    ∀ pre, (∀ x ∈ pre, isTextItemB x = false) →
      ∀ item rest s, isTextItemB item = true → item.getKey? "text" = some (.str s) →
        mergeNoEnqItems title (pre ++ item :: rest) =
          .ok (pre ++ item.setKey "text" (.str (renameText title s)) :: rest) := by
  intro pre
  induction pre with
  | nil =>
    intro _ item rest s hitem htx
    obtain ⟨fs, rfl⟩ : ∃ fs, item = Json.obj fs := by
      cases item with
      | obj fs => exact ⟨fs, rfl⟩
      | null => simp [isTextItemB] at hitem
      | bool b => simp [isTextItemB] at hitem
      | num n => simp [isTextItemB] at hitem
      | str sv => simp [isTextItemB] at hitem
      | arr xs => simp [isTextItemB] at hitem
    have hty : jsonEqStr (lookupField fs "type") "text" = true := by
      simpa [isTextItemB] using hitem
    have htx' : lookupField fs "text" = some (.str s) := htx
    simp [mergeNoEnqItems, hty, htx']
  | cons p pre' ih =>
    intro h item rest s hitem htx
    have hrec := ih (fun x hx => h x (by simp [hx])) item rest s hitem htx
    cases p with
    | obj fs =>
      have hty : jsonEqStr (lookupField fs "type") "text" = false := by
        simpa [isTextItemB] using h (Json.obj fs) (by simp)
      simp [mergeNoEnqItems, hty, hrec]
    | null => simp [mergeNoEnqItems, hrec]
    | bool b => simp [mergeNoEnqItems, hrec]
    | num n => simp [mergeNoEnqItems, hrec]
    | str sv => simp [mergeNoEnqItems, hrec]
    | arr xs => simp [mergeNoEnqItems, hrec]

/-- C5 (amended): on the no-enqueue branch only the first text item of the
first user record's content is modified (items before it pass through
untouched, and a content with no text item at all is written back unchanged);
when the record has `message` and `content` fields and no text item, the line
is rewritten as the unchanged record's re-serialization and the operation
reports success — but when the record has no `message` field at all, the
operation reports failure (`KeyError` caught as `False`). -/
theorem rename_no_enqueue_first_text_only :
    (∀ title items, (∀ item ∈ items, isTextItemB item = false) →
      mergeNoEnqItems title items = .ok items) ∧
    (∀ title pre, (∀ x ∈ pre, isTextItemB x = false) →
      ∀ item rest s, isTextItemB item = true → item.getKey? "text" = some (.str s) →
        mergeNoEnqItems title (pre ++ item :: rest) =
          .ok (pre ++ item.setKey "text" (.str (renameText title s)) :: rest)) ∧
    (∀ lines t i e mfs cs,
      scanLines lines = .ok (some i, none) →
      (lines.getD i ⟨"", none⟩).decoded = some e →
      e.getKey? "message" = some (.obj mfs) →
      lookupField mfs "content" = some (.arr cs) →
      (∀ item ∈ cs, isTextItemB item = false) →
      rename_session lines t = some ((lines.map Line.raw).set i (Json.dumps e ++ "\n"))) ∧
    (∀ lines t i e,
      scanLines lines = .ok (some i, none) →
      (lines.getD i ⟨"", none⟩).decoded = some e →
      e.getKey? "message" = none →
      rename_session lines t = none) := by
  refine ⟨mergeNoEnqItems_no_text, mergeNoEnqItems_first_text, ?_, ?_⟩
  · intro lines t i e mfs cs hscan hdec hmsg hcontent hnotext
    obtain ⟨efs, rfl, hlook⟩ : ∃ efs, e = Json.obj efs ∧
        lookupField efs "message" = some (.obj mfs) := by
      cases e with
      | obj efs => exact ⟨efs, rfl, hmsg⟩
      | null => simp [Json.getKey?] at hmsg
      | bool b => simp [Json.getKey?] at hmsg
      | num n => simp [Json.getKey?] at hmsg
      | str s => simp [Json.getKey?] at hmsg
      | arr xs => simp [Json.getKey?] at hmsg
    have hm := mergeNoEnqItems_no_text t cs hnotext
    have hset1 : setField mfs "content" (Json.arr cs) = mfs := setField_self _ _ _ hcontent
    have hset2 : setField efs "message" (Json.obj mfs) = efs := setField_self _ _ _ hlook
    have hrw : rewriteEntry (Json.obj efs) t none = .ok (Json.obj efs) := by
      simp only [rewriteEntry, pyGetD, Json.getKey?, hlook, Option.getD_some, ebind_ok,
        hcontent, mergeNoEnq, hm, Json.setKey, hset1, hset2, epure_ok]
    unfold rename_session
    simp only [hscan, hdec, hrw]
  · intro lines t i e hscan hdec hmsg
    have hrw : rewriteEntry e t none = .error () := by
      cases e with
      | obj efs =>
        have hlookn : lookupField efs "message" = none := hmsg
        simp only [rewriteEntry, pyGetD, Json.getKey?, hlookn, Option.getD_none,
          lookupField, ebind_ok, mergeNoEnq, mergeNoEnqItems, epure_ok]
      | null => simp [rewriteEntry, pyGetD, ebind_err]
      | bool b => simp [rewriteEntry, pyGetD, ebind_err]
      | num n => simp [rewriteEntry, pyGetD, ebind_err]
      | str s => simp [rewriteEntry, pyGetD, ebind_err]
      | arr xs => simp [rewriteEntry, pyGetD, ebind_err]
    unfold rename_session
    simp only [hscan, hdec, hrw]

/-- Concrete runs of `rename_no_enqueue_first_text_only`: a non-text item
passes through, and a user record with `message.content = []` is rewritten
unchanged with success. -/
theorem rename_no_enqueue_first_text_only_witness :
    mergeNoEnqItems "T" [Json.null] = .ok [Json.null] ∧
    rename_session
      [⟨"\x7b\"type\": \"user\", \"message\": \x7b\"content\": []\x7d\x7d\n",
        some (.obj [("type", .str "user"), ("message", .obj [("content", .arr [])])])⟩]
      "T" =
      some ((([⟨"\x7b\"type\": \"user\", \"message\": \x7b\"content\": []\x7d\x7d\n",
        some (.obj [("type", .str "user"),
          ("message", .obj [("content", .arr [])])])⟩] : List Line).map Line.raw).set 0
        (Json.dumps (.obj [("type", .str "user"),
          ("message", .obj [("content", .arr [])])]) ++ "\n")) :=
  ⟨rename_no_enqueue_first_text_only.1 "T" [Json.null] (by simp [isTextItemB]),
   rename_no_enqueue_first_text_only.2.2.1
     [⟨"\x7b\"type\": \"user\", \"message\": \x7b\"content\": []\x7d\x7d\n",
       some (.obj [("type", .str "user"), ("message", .obj [("content", .arr [])])])⟩]
     "T" 0 (.obj [("type", .str "user"), ("message", .obj [("content", .arr [])])])
     [("content", .arr [])] [] rfl rfl rfl rfl (by simp)⟩

/-! ## Title extraction (C3) -/

/-- C3 counterexample: the first user record's first text item cleans to
empty (it is a pure `<ide_...>` block), but the extraction does not stop
there — the second text item of the same record supplies the title, where the
claim predicts the default `"Session " + id[:8]`. -/
theorem title_skips_empty_cleaned_items :
    (parse_session_summary "abcdefgh-1234"
      [⟨"\x7b\"type\": \"user\", \"message\": \x7b\"content\": [\x7b\"type\": \"text\", \"text\": \"<ide_a>x</ide_a>\"\x7d, \x7b\"type\": \"text\", \"text\": \"hello\"\x7d]\x7d\x7d\n",
        some (.obj [("type", .str "user"),
          ("message", .obj [("content", .arr
            [.obj [("type", .str "text"), ("text", .str "<ide_a>x</ide_a>")],
             .obj [("type", .str "text"), ("text", .str "hello")]])])])⟩]).map
      (fun s => s.title) = some "hello" ∧
    cleanText "<ide_a>x</ide_a>" = "" ∧
    "hello" ≠ defaultTitle "abcdefgh-1234" :=
  ⟨rfl, rfl, by decide⟩

/-- The effectful item cleaning agrees with the pure one on success. -/
theorem cleanItemE_spec (item : Json) (v : Option String) (h : cleanItemE item = .ok v) :
    specItemText item = v := by
  cases item with
  | obj fs =>
    by_cases hty : jsonEqStr (lookupField fs "type") "text" = true
    · cases htx : lookupField fs "text" with
      | none =>
        simp only [cleanItemE, hty, if_true, htx] at h
        cases h
        simp [specItemText, hty, htx]
      | some w =>
        cases w with
        | str s =>
          simp only [cleanItemE, hty, if_true, htx] at h
          cases h
          simp [specItemText, hty, htx]
        | null => simp [cleanItemE, hty, htx] at h
        | bool b => simp [cleanItemE, hty, htx] at h
        | num n => simp [cleanItemE, hty, htx] at h
        | arr xs => simp [cleanItemE, hty, htx] at h
        | obj fs2 => simp [cleanItemE, hty, htx] at h
    · have hty0 : jsonEqStr (lookupField fs "type") "text" = false := by simpa using hty
      simp only [cleanItemE, hty0, Bool.false_eq_true, if_false] at h
      cases h
      simp [specItemText, hty0]
  | null => cases h; rfl
  | bool b => cases h; rfl
  | num n => cases h; rfl
  | str s => cases h; rfl
  | arr xs => cases h; rfl

/-- The effectful first-text loop agrees with the pure one on success. -/
theorem itemsFirstTextE_spec : ∀ (items : List Json) (v : Option String),
    itemsFirstTextE items = .ok v → itemsFirstTextPure items = v := by
  intro items
  induction items with
  | nil => intro v h; cases h; rfl
  | cons item rest ih =>
    intro v h
    simp only [itemsFirstTextE] at h
    cases hc : cleanItemE item with
    | error e => rw [hc] at h; cases h
    | ok w =>
      rw [hc] at h
      have hs := cleanItemE_spec item w hc
      cases w with
      | some t =>
        cases h
        simp [itemsFirstTextPure, hs]
      | none =>
        simp only [itemsFirstTextPure, hs]
        exact ih v h

/-- The effectful user-record extraction agrees with the pure one on
success. -/
theorem userTextE_spec (e : Json) (v : Option String) (h : userTextE e = .ok v) :
    itemsFirstTextPure (specContentItems e) = v := by
  cases e with
  | null => simp [userTextE, pyGetD, ebind_err] at h
  | bool b => simp [userTextE, pyGetD, ebind_err] at h
  | num n => simp [userTextE, pyGetD, ebind_err] at h
  | str s => simp [userTextE, pyGetD, ebind_err] at h
  | arr xs => simp [userTextE, pyGetD, ebind_err] at h
  | obj efs =>
    cases hmsg : lookupField efs "message" with
    | none =>
      simp only [userTextE, pyGetD, hmsg, Option.getD_none, ebind_ok, lookupField,
        pyIter, itemsFirstTextE] at h
      cases h
      simp [specContentItems, Json.getKey?, hmsg, pyIterPure, pyIter, itemsFirstTextPure]
    | some msgv =>
      cases msgv with
      | obj mfs =>
        cases hcon : lookupField mfs "content" with
        | none =>
          simp only [userTextE, pyGetD, hmsg, hcon, Option.getD_some, Option.getD_none,
            ebind_ok, pyIter, itemsFirstTextE] at h
          cases h
          simp [specContentItems, Json.getKey?, hmsg, hcon, pyIterPure, pyIter,
            itemsFirstTextPure]
        | some cv =>
          have hspec : specContentItems (Json.obj efs) = pyIterPure cv := by
            simp [specContentItems, Json.getKey?, hmsg, hcon]
          cases cv with
          | null =>
            simp [userTextE, pyGetD, hmsg, hcon, pyIter, ebind_ok, ebind_err] at h
          | bool b =>
            simp [userTextE, pyGetD, hmsg, hcon, pyIter, ebind_ok, ebind_err] at h
          | num n =>
            simp [userTextE, pyGetD, hmsg, hcon, pyIter, ebind_ok, ebind_err] at h
          | arr xs =>
            simp only [userTextE, pyGetD, hmsg, hcon, Option.getD_some, ebind_ok,
              pyIter] at h
            rw [hspec]
            simp only [pyIterPure, pyIter]
            exact itemsFirstTextE_spec xs v h
          | str sv =>
            simp only [userTextE, pyGetD, hmsg, hcon, Option.getD_some, ebind_ok,
              pyIter] at h
            rw [hspec]
            simp only [pyIterPure, pyIter]
            exact itemsFirstTextE_spec _ v h
          | obj cfs =>
            simp only [userTextE, pyGetD, hmsg, hcon, Option.getD_some, ebind_ok,
              pyIter] at h
            rw [hspec]
            simp only [pyIterPure, pyIter]
            exact itemsFirstTextE_spec _ v h
      | null => simp [userTextE, pyGetD, hmsg, ebind_ok, ebind_err] at h
      | bool b => simp [userTextE, pyGetD, hmsg, ebind_ok, ebind_err] at h
      | num n => simp [userTextE, pyGetD, hmsg, ebind_ok, ebind_err] at h
      | str s => simp [userTextE, pyGetD, hmsg, ebind_ok, ebind_err] at h
      | arr xs => simp [userTextE, pyGetD, hmsg, ebind_ok, ebind_err] at h

/-- The timestamp fold never touches the first-user text. -/
theorem tsFold_fuc (st : ScanInfo) (tso : Option String) :
    (tsFold st tso).firstUserContent = st.firstUserContent := by
  cases tso <;> rfl

/-- One record's processing extends the tracked first-user text exactly by
the pure extraction, and only for a `user` record. -/
theorem parseEntry_fuc (st : ScanInfo) (e : Json) (st' : ScanInfo)
    (h : parseEntry st e = .ok st') :
    st'.firstUserContent =
      (match st.firstUserContent with
       | some t => some t
       | none =>
         if jsonEqStr (e.getKey? "type") "user" then
           itemsFirstTextPure (specContentItems e)
         else none) := by
  cases e with
  | null => simp [parseEntry, pyGetOpt, ebind_err] at h
  | bool b => simp [parseEntry, pyGetOpt, ebind_err] at h
  | num n => simp [parseEntry, pyGetOpt, ebind_err] at h
  | str s => simp [parseEntry, pyGetOpt, ebind_err] at h
  | arr xs => simp [parseEntry, pyGetOpt, ebind_err] at h
  | obj fs =>
    have hkey : (Json.obj fs).getKey? "type" = lookupField fs "type" := rfl
    simp only [parseEntry, pyGetOpt, ebind_ok] at h
    by_cases hcond : (jsonEqStr (lookupField fs "type") "user" ||
        jsonEqStr (lookupField fs "type") "assistant") = true
    · rw [if_pos hcond] at h
      cases hts : pyGetTimestamp (Json.obj fs) with
      | error e2 =>
        rw [hts] at h
        simp only [ebind_err] at h
        cases h
      | ok tso =>
        rw [hts] at h
        simp only [ebind_ok] at h
        have hfm : (tsFold { st with message_count := st.message_count + 1 }
            tso).firstUserContent = st.firstUserContent := tsFold_fuc _ _
        by_cases huser : jsonEqStr (lookupField fs "type") "user" = true
        · cases hfuc : st.firstUserContent with
          | some t =>
            have hcnd : (jsonEqStr (lookupField fs "type") "user" &&
                (tsFold { st with message_count := st.message_count + 1 }
                  tso).firstUserContent.isNone) = false := by
              rw [hfm, hfuc]
              simp
            simp only [hcnd, Bool.false_eq_true, if_false, epure_ok] at h
            cases h
            rw [hfm, hfuc, hkey]
          | none =>
            have hcnd : (jsonEqStr (lookupField fs "type") "user" &&
                (tsFold { st with message_count := st.message_count + 1 }
                  tso).firstUserContent.isNone) = true := by
              rw [hfm, hfuc]
              simp [huser]
            simp only [hcnd, if_true] at h
            cases hut : userTextE (Json.obj fs) with
            | error e2 =>
              rw [hut] at h
              simp only [ebind_err] at h
              cases h
            | ok v =>
              rw [hut] at h
              simp only [ebind_ok] at h
              have hsp := userTextE_spec _ v hut
              cases v with
              | some t =>
                simp only [epure_ok] at h
                cases h
                simp [hkey, huser, hsp]
              | none =>
                simp only [epure_ok] at h
                cases h
                rw [tsFold_fuc]
                simp [hkey, huser, hsp, hfuc]
        · have huser0 : jsonEqStr (lookupField fs "type") "user" = false := by
            simpa using huser
          have hcnd : (jsonEqStr (lookupField fs "type") "user" &&
              (tsFold { st with message_count := st.message_count + 1 }
                tso).firstUserContent.isNone) = false := by
            simp [huser0]
          simp only [hcnd, Bool.false_eq_true, if_false, epure_ok] at h
          cases h
          rw [hfm, hkey]
          cases hfuc : st.firstUserContent <;> simp [huser0, hfuc]
    · have hor : jsonEqStr (lookupField fs "type") "user" = false ∧
          jsonEqStr (lookupField fs "type") "assistant" = false := by
        constructor <;> (cases h1 : jsonEqStr (lookupField fs "type") "user" <;>
          cases h2 : jsonEqStr (lookupField fs "type") "assistant" <;>
          simp [h1, h2] at hcond ⊢)
      rw [if_neg hcond] at h
      simp only [epure_ok] at h
      cases h
      rw [hkey]
      cases hfuc : st.firstUserContent <;> simp [hor.1, hfuc]

/-- The whole summary scan tracks exactly the first title candidate of the
file (relative to what was already tracked). -/
theorem parseLines_fuc : ∀ (ls : List Line) (st st' : ScanInfo),
    parseLines ls st = .ok st' →
    st'.firstUserContent =
      (match st.firstUserContent with
       | some t => some t
       | none => firstUserText ls) := by
  intro ls
  induction ls with
  | nil =>
    intro st st' h
    simp only [parseLines] at h
    cases h
    cases hfuc : st.firstUserContent <;> simp [firstUserText, hfuc]
  | cons l ls ih =>
    intro st st' h
    simp only [parseLines] at h
    by_cases hb : (pyStrip l.raw).data.isEmpty
    · rw [if_pos hb] at h
      have h1 := ih st st' h
      have hsv : specUserText l = none := by simp [specUserText, hb]
      cases hfuc : st.firstUserContent with
      | some t => rw [hfuc] at h1; simpa [hfuc] using h1
      | none =>
        rw [hfuc] at h1
        simp only [hfuc]
        simp only [firstUserText, hsv]
        simpa using h1
    · rw [if_neg hb] at h
      cases hd : l.decoded with
      | none =>
        simp only [hd] at h
        have h1 := ih st st' h
        have hsv : specUserText l = none := by simp [specUserText, hb, hd]
        cases hfuc : st.firstUserContent with
        | some t => rw [hfuc] at h1; simpa [hfuc] using h1
        | none =>
          rw [hfuc] at h1
          simp only [hfuc]
          simp only [firstUserText, hsv]
          simpa using h1
      | some e =>
        simp only [hd] at h
        cases hpe : parseEntry st e with
        | error e2 => simp only [hpe] at h; cases h
        | ok st1 =>
          simp only [hpe] at h
          have h1 := ih st1 st' h
          have h2 := parseEntry_fuc st e st1 hpe
          have hsu : specUserText l =
              (if jsonEqStr (e.getKey? "type") "user" then
                itemsFirstTextPure (specContentItems e)
              else none) := by
            simp [specUserText, hb, hd]
          cases hfuc : st.firstUserContent with
          | some t =>
            rw [hfuc] at h2
            simp only at h2
            rw [h2] at h1
            simpa [hfuc] using h1
          | none =>
            rw [hfuc] at h2
            simp only at h2
            rw [← hsu] at h2
            cases hsv : specUserText l with
            | some t =>
              rw [hsv] at h2
              rw [h2] at h1
              simp only [hfuc]
              simp only [firstUserText, hsv]
              simpa using h1
            | none =>
              rw [hsv] at h2
              rw [h2] at h1
              simp only [hfuc]
              simp only [firstUserText, hsv]
              simpa using h1

/-- C3 (amended): the title of a produced summary is derived from the first
content item with a nonempty cleaned text — scanning user records in file
order and each record's content items in order, not stopping at a text item
that cleans to empty; if no such item exists anywhere, the title is
`"Session " + session_id[:8]`, and otherwise the found text is cut before the
first blank-line break, else at the first line break, and capped at 100
characters. -/
theorem parse_title_matches_spec (sessionId : String) (lines : List Line)
    (info : SummaryInfo) (h : parse_session_summary sessionId lines = some info) :
    info.title = specTitle sessionId lines := by
  unfold parse_session_summary at h
  cases hp : parseLines lines ⟨0, none, none, none⟩ with
  | error e => simp only [hp] at h; cases h
  | ok st =>
    simp only [hp] at h
    have hfuc : st.firstUserContent = firstUserText lines := by
      simpa using parseLines_fuc lines ⟨0, none, none, none⟩ st hp
    by_cases hc : st.message_count > 0
    · rw [if_pos hc] at h
      cases h
      cases hft : firstUserText lines with
      | none => simp [specTitle, hft, hfuc ▸ hft]
      | some t => simp [specTitle, hft, hfuc ▸ hft]
    · rw [if_neg hc] at h
      cases h

/-- Concrete run of `parse_title_matches_spec` on a one-record file. -/
theorem parse_title_matches_spec_witness :
    ({ session_id := "abc12345", title := "hello", message_count := 1,
       created_at := none, updated_at := none } : SummaryInfo).title =
      specTitle "abc12345"
        [⟨"\x7b\"type\": \"user\", \"message\": \x7b\"content\": [\x7b\"type\": \"text\", \"text\": \"hello\"\x7d]\x7d\x7d\n",
          some (.obj [("type", .str "user"),
            ("message", .obj [("content",
              .arr [.obj [("type", .str "text"), ("text", .str "hello")]])])])⟩] :=
  parse_title_matches_spec "abc12345"
    [⟨"\x7b\"type\": \"user\", \"message\": \x7b\"content\": [\x7b\"type\": \"text\", \"text\": \"hello\"\x7d]\x7d\x7d\n",
      some (.obj [("type", .str "user"),
        ("message", .obj [("content",
          .arr [.obj [("type", .str "text"), ("text", .str "hello")]])])])⟩]
    { session_id := "abc12345", title := "hello", message_count := 1,
      created_at := none, updated_at := none } rfl
